import Mathlib

/-!
Verification of the Urbis disk-aware spatial index against its
natural-language specification.

The development is a shallow embedding of the C sources (geometry.c, page.c,
quadtree.c, kdtree.c, disk_manager.c, spatial_index.c).  C doubles are
embedded as exact rationals: every operation the verified claims touch uses
only +, -, *, / and comparisons, which IEEE semantics and the exact rational
semantics order identically on the exact-value level the spec speaks about.
The DBL_MAX sentinel used by mbr_empty is embedded as the exact rational
value of DBL_MAX.  Machine integers (uint32_t, uint64_t, size_t) are embedded
as Nat; none of the modelled operations can overflow them on the inputs the
claims quantify over, and no claim is about wrap-around behaviour.
-/

namespace Urbis

/-- Planar point, geometry.c Point (two doubles). -/
structure Point where
  x : ℚ
  y : ℚ
  deriving DecidableEq, Repr

/-- The exact value of IEEE-754 DBL_MAX, used by mbr_empty as a sentinel
(computed in ℕ and cast, so that it kernel-evaluates without deep
recursion). -/
def dblMax : ℚ := ((2 ^ 53 - 1) * 2 ^ 971 : ℕ)

/-- Axis-aligned rectangle, geometry.c MBR. -/
structure MBR where
  min_x : ℚ
  min_y : ℚ
  max_x : ℚ
  max_y : ℚ
  deriving DecidableEq, Repr

/-- geometry.c mbr_create. -/
def mbr_create (min_x min_y max_x max_y : ℚ) : MBR :=
  ⟨min_x, min_y, max_x, max_y⟩

/-- geometry.c mbr_empty: inverted sentinel rectangle. -/
def mbr_empty : MBR := ⟨dblMax, dblMax, -dblMax, -dblMax⟩

/-- geometry.c mbr_is_empty. -/
def mbr_is_empty (m : MBR) : Bool :=
  m.min_x > m.max_x || m.min_y > m.max_y

/-- geometry.c point_create. -/
def point_create (x y : ℚ) : Point := ⟨x, y⟩

/-- geometry.c point_distance_sq. -/
def point_distance_sq (a b : Point) : ℚ :=
  (b.x - a.x) * (b.x - a.x) + (b.y - a.y) * (b.y - a.y)

/-- geometry.c mbr_expand_point. -/
def mbr_expand_point (m : MBR) (p : Point) : MBR :=
  { min_x := if p.x < m.min_x then p.x else m.min_x
    min_y := if p.y < m.min_y then p.y else m.min_y
    max_x := if p.x > m.max_x then p.x else m.max_x
    max_y := if p.y > m.max_y then p.y else m.max_y }

/-- geometry.c mbr_expand_mbr (a no-op when the other rectangle is empty). -/
def mbr_expand_mbr (m other : MBR) : MBR :=
  if mbr_is_empty other then m
  else
    { min_x := if other.min_x < m.min_x then other.min_x else m.min_x
      min_y := if other.min_y < m.min_y then other.min_y else m.min_y
      max_x := if other.max_x > m.max_x then other.max_x else m.max_x
      max_y := if other.max_y > m.max_y then other.max_y else m.max_y }

/-- geometry.c mbr_intersects: closed-rectangle overlap, empty boxes never intersect. -/
def mbr_intersects (a b : MBR) : Bool :=
  if mbr_is_empty a || mbr_is_empty b then false
  else
    !(a.max_x < b.min_x || a.min_x > b.max_x ||
      a.max_y < b.min_y || a.min_y > b.max_y)

/-- geometry.c mbr_contains_point (closed rectangle). -/
def mbr_contains_point (m : MBR) (p : Point) : Bool :=
  if mbr_is_empty m then false
  else
    p.x ≥ m.min_x && p.x ≤ m.max_x && p.y ≥ m.min_y && p.y ≤ m.max_y

/-- geometry.c mbr_contains_mbr: a contains b. -/
def mbr_contains_mbr (a b : MBR) : Bool :=
  if mbr_is_empty a || mbr_is_empty b then false
  else
    b.min_x ≥ a.min_x && b.max_x ≤ a.max_x &&
    b.min_y ≥ a.min_y && b.max_y ≤ a.max_y

/-- geometry.c mbr_centroid. -/
def mbr_centroid (m : MBR) : Point :=
  if mbr_is_empty m then ⟨0, 0⟩
  else ⟨(m.min_x + m.max_x) / 2, (m.min_y + m.max_y) / 2⟩

/-- geometry.h GeomType. -/
inductive GeomType where
  | point
  | linestring
  | polygon
  deriving DecidableEq, Repr

/-- geometry.h SpatialObject, at the level every modelled operation reads it:
id, type and the derived centroid and mbr.  The geometry payload is elided:
the modelled index operations (page store, allocator, façade, trees) only
ever read the four fields below; spatial_object_update_derived recomputes
centroid and mbr from the payload before insert, so quantifying over all
centroid/mbr values covers all geometries. -/
structure SpatialObject where
  id : ℕ
  type : GeomType
  centroid : Point
  mbr : MBR
  deriving DecidableEq, Repr

/- ======================= page.c ======================= -/

def MAX_OBJECTS_PER_PAGE : ℕ := 64
def PAGE_SIZE : ℕ := 4096
def PAGE_STATUS_ALLOCATED : ℕ := 1
def PAGE_STATUS_FULL : ℕ := 2
def PAGE_STATUS_DIRTY : ℕ := 4
def PAGE_STATUS_PINNED : ℕ := 8

/-- page.h PageHeader.  The checksum is carried as stored data; the FNV-1a
computation hashes the IEEE byte representation, which the exact-value
embedding does not model, and no verified claim depends on its value. -/
structure PageHeader where
  page_id : ℕ
  track_id : ℕ
  object_count : ℕ
  flags : ℕ
  extent : MBR
  centroid : Point
  checksum : ℕ
  deriving DecidableEq, Repr

/-- page.h Page.  The objects array is modelled as the list of its first
object_count (live) entries; page_create zeroes the array and every page
operation keeps object_count equal to the number of live entries. -/
structure Page where
  header : PageHeader
  objects : List SpatialObject
  object_capacity : ℕ
  deriving DecidableEq, Repr

inductive PageError where
  | null_ptr
  | alloc
  | full
  | not_found
  | io
  | corrupt
  | invalid_id
  deriving DecidableEq, Repr

/-- page.c page_create. -/
def page_create (page_id track_id : ℕ) : Page :=
  { header :=
      { page_id := page_id
        track_id := track_id
        object_count := 0
        flags := PAGE_STATUS_ALLOCATED
        extent := mbr_empty
        centroid := ⟨0, 0⟩
        checksum := 0 }
    objects := []
    object_capacity := MAX_OBJECTS_PER_PAGE }

/-- page.c page_add_object: append, expand extent only, set DIRTY (and FULL
when the page fills up).  The centroid is not touched here. -/
def page_add_object (page : Page) (obj : SpatialObject) : Except PageError Page :=
  if page.header.object_count ≥ page.object_capacity then .error .full
  else
    let count := page.header.object_count + 1
    let flags0 := page.header.flags ||| PAGE_STATUS_DIRTY
    let flags := if count ≥ page.object_capacity then flags0 ||| PAGE_STATUS_FULL else flags0
    .ok { page with
          header := { page.header with
                      object_count := count
                      flags := flags
                      extent := mbr_expand_mbr page.header.extent obj.mbr }
          objects := page.objects ++ [obj] }

/-- MBR-union of a list of object MBRs, exactly the fold page_update_derived
performs (mbr_expand_mbr starting from mbr_empty). -/
def extent_union (objs : List SpatialObject) : MBR :=
  objs.foldl (fun acc o => mbr_expand_mbr acc o.mbr) mbr_empty

/-- page.c page_update_derived: recompute extent from scratch and, when the
page is non-empty, the centroid as the arithmetic mean of the objects'
centroids.  (The C code also refreshes the stored checksum; see PageHeader.) -/
def page_update_derived (page : Page) : Page :=
  let extent := extent_union page.objects
  let cx := page.objects.foldl (fun acc o => acc + o.centroid.x) 0
  let cy := page.objects.foldl (fun acc o => acc + o.centroid.y) 0
  let centroid :=
    if page.header.object_count > 0 then
      Point.mk (cx / page.header.object_count) (cy / page.header.object_count)
    else page.header.centroid
  { page with header := { page.header with extent := extent, centroid := centroid } }

/-- page.c page_remove_object: drop the first object with the given id,
clear FULL, set DIRTY, then recompute the derived fields. -/
def page_remove_object (page : Page) (object_id : ℕ) : Except PageError Page :=
  if page.objects.any (fun o => o.id == object_id) then
    let page1 :=
      { page with
        header := { page.header with
                    object_count := page.header.object_count - 1
                    flags := (page.header.flags ||| PAGE_STATUS_DIRTY) &&& (15 - PAGE_STATUS_FULL) }
        objects := page.objects.eraseP (fun o => o.id == object_id) }
    .ok (page_update_derived page1)
  else .error .not_found

/-- page.c page_find_object. -/
def page_find_object (page : Page) (object_id : ℕ) : Option SpatialObject :=
  page.objects.find? (fun o => o.id == object_id)

/-- page.c page_is_full. -/
def page_is_full (page : Page) : Bool :=
  page.header.object_count ≥ page.object_capacity

/- ======================= page pool (page.c) ======================= -/

/-- page.c page_pool_query_region: all pages whose stored extent intersects
the region, in pool order. -/
def page_pool_query_region (pool : List Page) (region : MBR) : List Page :=
  pool.filter (fun pg => mbr_intersects pg.header.extent region)

/-- page.c page_pool_get: first page with the given id. -/
def page_pool_get (pool : List Page) (page_id : ℕ) : Option Page :=
  pool.find? (fun pg => pg.header.page_id == page_id)

/- ======================= spatial_index.c query_range ======================= -/

/-- spatial_index.c spatial_index_query_range: collect, from each page whose
extent intersects the range, the objects whose MBR intersects the range, in
page-scan order. -/
def spatial_index_query_range (pool : List Page) (range : MBR) : List SpatialObject :=
  (page_pool_query_region pool range).flatMap
    (fun pg => pg.objects.filter (fun o => mbr_intersects o.mbr range))

/- ======================= disk_manager.c seek estimator ======================= -/

/-- One step of the seek scan in disk_manager_estimate_seeks: increment when
the page's track differs from the previous one and a previous one exists
(last_track is not the initial 0), then remember the track. -/
def seek_step (acc : ℕ × ℕ) (track_id : ℕ) : ℕ × ℕ :=
  (if track_id ≠ acc.2 ∧ acc.2 ≠ 0 then acc.1 + 1 else acc.1, track_id)

/-- disk_manager.c disk_manager_estimate_seeks: scan the page-id list in
order, resolve each id in the pool (ids that do not resolve are skipped by
the continue), and count track transitions starting from last_track = 0. -/
def disk_manager_estimate_seeks (pool : List Page) (page_ids : List ℕ) : ℕ :=
  (page_ids.foldl
    (fun acc pid =>
      match page_pool_get pool pid with
      | none => acc
      | some pg => seek_step acc pg.header.track_id)
    (0, 0)).1

/-- The track-transition count of a track-id list scanned in order, exactly
as the spec defines estimated_seeks. -/
def track_transition_count (tracks : List ℕ) : ℕ :=
  (tracks.foldl seek_step (0, 0)).1

/- ======================= page serialization (page.c) ======================= -/

/-- One fixed-width value written by page_serialize via memcpy.  The byte
buffer is modelled as the list of the fixed-stride values memcpy writes, in
write order; memcpy round trips each value exactly, which the token
embedding preserves. -/
inductive SerField where
  | header (h : PageHeader)
  | u64 (n : ℕ)
  | gty (t : GeomType)
  | pt (p : Point)
  | box (m : MBR)
  deriving DecidableEq, Repr

/-- The per-object record page_serialize writes and page_deserialize reads:
id, type, centroid, MBR.  Full geometry payloads are not serialized in v1. -/
structure ObjRec where
  id : ℕ
  type : GeomType
  centroid : Point
  mbr : MBR
  deriving DecidableEq, Repr

/-- Projection of a stored object to its serialized per-object record. -/
def objRec_of (o : SpatialObject) : ObjRec := ⟨o.id, o.type, o.centroid, o.mbr⟩

/-- page.c page_serialize: fails (alloc) unless the buffer holds PAGE_SIZE
bytes; writes the page header verbatim, then, for each of the first
object_count objects, its id, type, centroid and MBR. -/
def page_serialize (page : Page) (buffer_size : ℕ) : Except PageError (List SerField) :=
  if buffer_size < PAGE_SIZE then .error .alloc
  else .ok (.header page.header ::
    (page.objects.take page.header.object_count).flatMap
      (fun o => [.u64 o.id, .gty o.type, .pt o.centroid, .box o.mbr]))

/-- Read object_count four-field object records from the buffer, as the
deserialization loop does.  On a raw byte buffer every fixed-stride read
yields a value; the none case (a token of the wrong shape) has no C
counterpart and is unreachable for buffers produced by page_serialize. -/
def read_object_records : ℕ → List SerField → Option (List ObjRec)
  | 0, _ => some []
  | n + 1, .u64 i :: .gty t :: .pt c :: .box m :: rest =>
      (read_object_records n rest).map (fun objs => ⟨i, t, c, m⟩ :: objs)
  | _ + 1, _ => none

/-- page.c page_deserialize: fails (corrupt) unless the buffer holds
PAGE_SIZE bytes; reads the header verbatim, rejects
object_count > MAX_OBJECTS_PER_PAGE as corrupt, then reads object_count
object records. -/
def page_deserialize (buffer : List SerField) (buffer_size : ℕ) :
    Except PageError (PageHeader × List ObjRec) :=
  if buffer_size < PAGE_SIZE then .error .corrupt
  else
    match buffer with
    | .header h :: rest =>
        if h.object_count > MAX_OBJECTS_PER_PAGE then .error .corrupt
        else
          match read_object_records h.object_count rest with
          | some objs => .ok (h, objs)
          | none => .error .corrupt
    | _ => .error .corrupt

/- ======================= page cache (page.c) ======================= -/

/-- Whether a pool page's PINNED flag is set (page.c reads
page->header.flags & PAGE_STATUS_PINNED). -/
def page_pinned (pg : Page) : Bool :=
  pg.header.flags &&& PAGE_STATUS_PINNED != 0

/-- page.h PageCache at the level the capacity claim reads it: the LRU list
of cached page ids (MRU head first, LRU tail last) plus the count and
capacity fields.  The hash table indexes the same refs and affects neither
count, capacity nor the eviction loop control; access counters and
timestamps are not read by any claim. -/
structure PageCache where
  entries : List ℕ
  count : ℕ
  capacity : ℕ
  deriving DecidableEq, Repr

/-- page.c page_cache_evict eviction loop, with explicit fuel: one fuel unit
per iteration of the C while loop, none when the loop is still running when
the fuel ends.  Faithful to the C body: the victim is re-read from the tail
at every iteration, and under a pinned tail the body changes no state (the
local victim cursor reassignment before the continue is overwritten at the
next iteration), so the same arguments recur. -/
def page_cache_evict_loop (pool : List Page) :
    ℕ → PageCache → ℕ → Option PageCache
  | _, cache, 0 => some cache
  | fuel, cache, need + 1 =>
      match cache.entries.getLast? with
      | none => some cache
      | some victim =>
          match fuel with
          | 0 => none
          | fuel + 1 =>
              match page_pool_get pool victim with
              | some pg =>
                  if page_pinned pg then
                    page_cache_evict_loop pool fuel cache (need + 1)
                  else
                    page_cache_evict_loop pool fuel
                      { cache with entries := cache.entries.dropLast
                                   count := cache.count - 1 } need
              | none =>
                  page_cache_evict_loop pool fuel
                    { cache with entries := cache.entries.dropLast
                                 count := cache.count - 1 } need

/-- page.c page_cache_get on the same cache view.  Hit: splice the ref to
the MRU head and return the pool page.  Miss on a pool-resident page: when
count has reached capacity, run the eviction loop for one eviction, then
insert a new ref at the head.  none propagates a non-terminating eviction
loop. -/
def page_cache_get (pool : List Page) (fuel : ℕ) (cache : PageCache) (page_id : ℕ) :
    Option (PageCache × Option Page) :=
  if cache.entries.contains page_id then
    some ({ cache with entries := page_id :: cache.entries.erase page_id },
          page_pool_get pool page_id)
  else
    match page_pool_get pool page_id with
    | none => some (cache, none)
    | some pg =>
        match (if cache.count ≥ cache.capacity
               then page_cache_evict_loop pool fuel cache 1
               else some cache) with
        | none => none
        | some cache1 =>
            some ({ cache1 with entries := page_id :: cache1.entries
                                count := cache1.count + 1 }, some pg)

/- ======================= quadtree.c ======================= -/

def QT_DEFAULT_CAPACITY : ℕ := 8
def QT_MAX_DEPTH : ℕ := 20

/-- quadtree.h QTItem (payload pointer elided: no modelled claim reads it). -/
structure QTItem where
  id : ℕ
  bounds : MBR
  centroid : Point
  deriving DecidableEq, Repr

/-- quadtree.h QTNode: a leaf, or an internal node with the fixed child
order NW, NE, SW, SE.  Depth is passed along by the operations (the stored
depth field always equals the node's distance from the root). -/
inductive QTNode where
  | leaf (bounds : MBR) (items : List QTItem)
  | node (bounds : MBR) (items : List QTItem) (nw ne sw se : QTNode)
  deriving DecidableEq, Repr

def QTNode.bounds : QTNode → MBR
  | .leaf b _ => b
  | .node b _ _ _ _ _ => b

inductive QTError where
  | null_ptr
  | alloc
  | bounds
  | not_found
  deriving DecidableEq, Repr

/-- The redistribution step of qtnode_split for one item: scan the children
in NW, NE, SW, SE order and append the item to the first child that entirely
contains it and has a free slot; none when no child takes it. -/
def qtsplit_place (item : QTItem) (capacity : ℕ) :
    List (MBR × List QTItem) → Option (List (MBR × List QTItem))
  | [] => none
  | (b, its) :: rest =>
      if mbr_contains_mbr b item.bounds = true ∧ its.length < capacity then
        some ((b, its ++ [item]) :: rest)
      else
        (qtsplit_place item capacity rest).map (fun r => (b, its) :: r)

/-- quadtree.c qtnode_split: create four children over the four
sub-rectangles, move items entirely contained in a single child into that
child, then set the parent's item_count to 0.  An item no child takes
(inserted stays false) is dropped by that final clear. -/
def qtnode_split (bounds : MBR) (items : List QTItem) (capacity : ℕ) : QTNode :=
  let mid_x := (bounds.min_x + bounds.max_x) / 2
  let mid_y := (bounds.min_y + bounds.max_y) / 2
  let nwB := mbr_create bounds.min_x mid_y mid_x bounds.max_y
  let neB := mbr_create mid_x mid_y bounds.max_x bounds.max_y
  let swB := mbr_create bounds.min_x bounds.min_y mid_x mid_y
  let seB := mbr_create mid_x bounds.min_y bounds.max_x mid_y
  let children := items.foldl
    (fun cs item =>
      match qtsplit_place item capacity cs with
      | some cs1 => cs1
      | none => cs)
    [(nwB, []), (neB, []), (swB, []), (seB, [])]
  QTNode.node bounds []
    (.leaf (children.getD 0 (nwB, [])).1 (children.getD 0 (nwB, [])).2)
    (.leaf (children.getD 1 (neB, [])).1 (children.getD 1 (neB, [])).2)
    (.leaf (children.getD 2 (swB, [])).1 (children.getD 2 (swB, [])).2)
    (.leaf (children.getD 3 (seB, [])).1 (children.getD 3 (seB, [])).2)

/-- quadtree.c qtnode_insert, with explicit recursion fuel (one unit per C
recursive call; the C recursion depth is bounded by the max_depth cap on
splits, and max_depth + 2 fuel suffices from the root).  Reject items whose
bounds miss the node bounds; split an over-capacity leaf below max_depth and
re-insert into the split node; at an internal node descend into the first
child that entirely contains the item, or keep the item here. -/
def qtnode_insert (capacity max_depth : ℕ) :
    ℕ → QTNode → ℕ → QTItem → Option (Except QTError QTNode)
  | 0, _, _, _ => none
  | fuel + 1, .leaf bounds items, depth, item =>
      if mbr_intersects bounds item.bounds = false then some (.error .bounds)
      else if items.length ≥ capacity ∧ depth < max_depth then
        qtnode_insert capacity max_depth fuel (qtnode_split bounds items capacity) depth item
      else some (.ok (.leaf bounds (items ++ [item])))
  | fuel + 1, .node bounds items nw ne sw se, depth, item =>
      if mbr_intersects bounds item.bounds = false then some (.error .bounds)
      else if mbr_contains_mbr nw.bounds item.bounds then
        (qtnode_insert capacity max_depth fuel nw (depth + 1) item).map
          (fun r => r.map (fun nw1 => .node bounds items nw1 ne sw se))
      else if mbr_contains_mbr ne.bounds item.bounds then
        (qtnode_insert capacity max_depth fuel ne (depth + 1) item).map
          (fun r => r.map (fun ne1 => .node bounds items nw ne1 sw se))
      else if mbr_contains_mbr sw.bounds item.bounds then
        (qtnode_insert capacity max_depth fuel sw (depth + 1) item).map
          (fun r => r.map (fun sw1 => .node bounds items nw ne sw1 se))
      else if mbr_contains_mbr se.bounds item.bounds then
        (qtnode_insert capacity max_depth fuel se (depth + 1) item).map
          (fun r => r.map (fun se1 => .node bounds items nw ne sw se1))
      else some (.ok (.node bounds (items ++ [item]) nw ne sw se))

/-- quadtree.h QuadTree. -/
structure QuadTree where
  root : QTNode
  node_capacity : ℕ
  max_depth : ℕ
  total_items : ℕ
  deriving DecidableEq, Repr

/-- quadtree.c quadtree_create and quadtree_init: fresh leaf root, defaults
when the parameters are zero. -/
def quadtree_create (bounds : MBR) (node_capacity : ℕ) (max_depth : ℕ) : QuadTree :=
  { root := .leaf bounds []
    node_capacity := if node_capacity > 0 then node_capacity else QT_DEFAULT_CAPACITY
    max_depth := if max_depth > 0 then max_depth else QT_MAX_DEPTH
    total_items := 0 }

/-- quadtree.c quadtree_insert (via quadtree_insert_with_centroid): item
centroid defaults to the bounds centroid; total_items counts successful
inserts. -/
def quadtree_insert (fuel : ℕ) (qt : QuadTree) (id : ℕ) (bounds : MBR) :
    Option (Except QTError QuadTree) :=
  let item : QTItem := ⟨id, bounds, mbr_centroid bounds⟩
  (qtnode_insert qt.node_capacity qt.max_depth fuel qt.root 0 item).map
    (fun r => r.map (fun root1 =>
      { qt with root := root1, total_items := qt.total_items + 1 }))

/-- quadtree.c qtnode_query_range: prune nodes whose bounds miss the range,
emit items whose bounds intersect the range, node items first then the
children in NW, NE, SW, SE order. -/
def qtnode_query_range (t : QTNode) (range : MBR) : List QTItem :=
  match t with
  | .leaf bounds items =>
      if mbr_intersects bounds range = false then []
      else items.filter (fun it => mbr_intersects it.bounds range)
  | .node bounds items nw ne sw se =>
      if mbr_intersects bounds range = false then []
      else
        items.filter (fun it => mbr_intersects it.bounds range) ++
        qtnode_query_range nw range ++ qtnode_query_range ne range ++
        qtnode_query_range sw range ++ qtnode_query_range se range

/-- quadtree.c quadtree_query_range (the result list is cleared first). -/
def quadtree_query_range (qt : QuadTree) (range : MBR) : List QTItem :=
  qtnode_query_range qt.root range

/- ======================= kdtree.c ======================= -/

/-- kdtree.h KDPointData: a point, the object id, and the data payload.  In
the block tree the payload is always a pointer to the pool object the point
was taken from; the model carries that object by value (no modelled call
site ever stores a null payload). -/
structure KDPointData where
  point : Point
  object_id : ℕ
  obj : SpatialObject
  deriving DecidableEq, Repr

/-- Placeholder KDPointData for out-of-range list reads (never reached: all
indexing below is proved in range). -/
def kdDummy : KDPointData := ⟨⟨0, 0⟩, 0, ⟨0, .point, ⟨0, 0⟩, mbr_create 0 0 0 0⟩⟩

/-- kdtree.h KDNode, nil for the NULL child pointer.  split_dim alternates
with depth and is implicit in the recursion; the stored bounds and subtree
counts are derived (kdnode_update_bounds) and recomputed by KDNodeT.bounds. -/
inductive KDNodeT where
  | nil
  | node (point : Point) (object_id : ℕ) (obj : SpatialObject) (left right : KDNodeT)
  deriving DecidableEq, Repr

/-- kdtree.c kdnode_update_bounds: a node's stored bounds are its own
point's box expanded by the children's bounds (expansion by an absent
child's empty box is a no-op, matching the null checks). -/
def KDNodeT.bounds : KDNodeT → MBR
  | .nil => mbr_empty
  | .node p _ _ l r =>
      mbr_expand_mbr (mbr_expand_mbr (mbr_create p.x p.y p.x p.y) l.bounds) r.bounds

/-- The points of a subtree in preorder (node, left, right), the order
range_query_recursive emits them in. -/
def KDNodeT.toList : KDNodeT → List KDPointData
  | .nil => []
  | .node p id obj l r => ⟨p, id, obj⟩ :: (l.toList ++ r.toList)

/-- kdtree.c compare_by_x / compare_by_y as a total boolean order on the
split dimension depth mod 2. -/
def kd_le (depth : ℕ) (a b : KDPointData) : Bool :=
  if depth % 2 = 0 then a.point.x ≤ b.point.x else a.point.y ≤ b.point.y

/-- Ordered insertion step of the comparison sort modelling qsort. -/
def kd_insert (depth : ℕ) (x : KDPointData) : List KDPointData → List KDPointData
  | [] => [x]
  | y :: ys => if kd_le depth x y then x :: y :: ys else y :: kd_insert depth x ys

/-- qsort over compare_by_x / compare_by_y, modelled as a comparison sort by
the same order (insertion sort).  qsort's tie order is unspecified in C;
every property verified below is invariant under the tie permutation, and
only the sortedness and permutation facts of the result are used. -/
def kd_sort (depth : ℕ) : List KDPointData → List KDPointData
  | [] => []
  | x :: xs => kd_insert depth x (kd_sort depth xs)

/-- kdtree.c build_tree_recursive: sort by the depth's axis, take the median
at count / 2 as the node, recurse on the two halves at depth + 1.  The C
recursion terminates because both halves are strictly shorter; the model
makes that explicit with fuel (fuel at least the list length always
suffices, and callers pass exactly that). -/
def build_tree_recursive (fuel : ℕ) (l : List KDPointData) (depth : ℕ) : KDNodeT :=
  match fuel with
  | 0 => .nil
  | fuel + 1 =>
      if l.length = 0 then .nil
      else
        let sorted := kd_sort depth l
        let m := l.length / 2
        KDNodeT.node (sorted.getD m kdDummy).point (sorted.getD m kdDummy).object_id
          (sorted.getD m kdDummy).obj
          (build_tree_recursive fuel (sorted.take m) (depth + 1))
          (build_tree_recursive fuel (sorted.drop (m + 1)) (depth + 1))

/-- kdtree.c kdtree_bulk_load's closing loop: the tree bounds are the fold
of mbr_expand_point over the input points. -/
def kd_tree_bounds (points : List KDPointData) : MBR :=
  points.foldl (fun b e => mbr_expand_point b e.point) mbr_empty

/-- kdtree.h KDTree. -/
structure KDTree where
  root : KDNodeT
  size : ℕ
  bounds : MBR
  deriving DecidableEq, Repr

/-- kdtree.c kdtree_init. -/
def kdtree_init : KDTree := { root := .nil, size := 0, bounds := mbr_empty }

/-- kdtree.c kdtree_bulk_load: with zero points it returns at once leaving
the tree untouched; otherwise it rebuilds the balanced tree from a copy of
the points and recomputes size and bounds. -/
def kdtree_bulk_load (tree : KDTree) (points : List KDPointData) : KDTree :=
  if points.length = 0 then tree
  else { root := build_tree_recursive points.length points 0
         size := points.length
         bounds := kd_tree_bounds points }

inductive KDError where
  | null_ptr
  | alloc
  | empty
  | not_found
  deriving DecidableEq, Repr

/-- kdtree.c range_query_recursive: prune subtrees whose bounds miss the
range, emit the node point when the (closed) range contains it, node first,
then left, then right. -/
def range_query_recursive (t : KDNodeT) (range : MBR) : List KDPointData :=
  match t with
  | .nil => []
  | .node p id obj l r =>
      if mbr_intersects (KDNodeT.node p id obj l r).bounds range = false then []
      else
        (if mbr_contains_point range p then [⟨p, id, obj⟩] else []) ++
        range_query_recursive l range ++ range_query_recursive r range

/-- The inner scan of the selection sort in kdtree_k_nearest: find the index
of the first strictly-smallest distance at or after the current position
(min_idx is replaced only on a strictly smaller distance). -/
def scan_min (q : Point) : ℕ × ℚ → ℕ → List KDPointData → ℕ × ℚ
  | best, _, [] => best
  | best, j, e :: es =>
      scan_min q
        (if point_distance_sq q e.point < best.2 then (j, point_distance_sq q e.point) else best)
        (j + 1) es

/-- The selection sort of kdtree_k_nearest: k times, find the minimum
distance entry in the remaining suffix, swap it to the front and emit it.
The suffix after one step is (arr.set m arr.head).tail, exactly the array
suffix after the C swap of positions i and min_idx. -/
def select_k_by_distance (q : Point) : ℕ → List KDPointData → List KDPointData
  | 0, _ => []
  | _ + 1, [] => []
  | k + 1, x :: xs =>
      let m := (scan_min q (0, point_distance_sq q x.point) 1 xs).1
      ((x :: xs).getD m x) ::
        select_k_by_distance q k ((x :: xs).set m x).tail

/-- kdtree.c kdtree_k_nearest: error on an empty tree; k = 0 returns at once;
otherwise collect every point by a range query over the tree bounds, then
selection-sort the k smallest squared distances out and return them in
emission order. -/
def kdtree_k_nearest (tree : KDTree) (q : Point) (k : ℕ) :
    Except KDError (List KDPointData) :=
  if tree.root = KDNodeT.nil then .error .empty
  else if k = 0 then .ok []
  else .ok (select_k_by_distance q k (range_query_recursive tree.root tree.bounds))

/- ======================= spatial index façade (spatial_index.c) ======================= -/

inductive SIError where
  | null_ptr
  | alloc
  | not_built
  | not_found
  | full
  | io
  | invalid
  deriving DecidableEq, Repr

/-- The allocator decisions spatial_index_insert consumes, passed as an
oracle: use_page is the pool index of the page returned by the
allocation-tree nearest-centroid lookup (none when the tree is empty or the
lookup fails), new_track_id the track the allocation strategy picks when a
fresh page is created.  The invariants proved below hold for every oracle
value, hence in particular for the best-fit policy the code computes. -/
structure AllocChoice where
  use_page : Option ℕ
  new_track_id : ℕ
  deriving DecidableEq, Repr

/-- spatial_index.h SpatialIndex at the level the verified claims read it:
the page pool, the overall bounds, the id counters, the block k-d tree and
the is_built flag.  The allocation tree (replaced by the insert oracle), the
block list, tracks and the page quadtree are not read by any claim below. -/
structure SpatialIndex where
  pool : List Page
  bounds : MBR
  next_object_id : ℕ
  next_page_id : ℕ
  block_tree : KDTree
  is_built : Bool
  deriving DecidableEq, Repr

/-- spatial_index.c spatial_index_init's observable state. -/
def spatial_index_empty : SpatialIndex :=
  { pool := []
    bounds := mbr_empty
    next_object_id := 1
    next_page_id := 1
    block_tree := kdtree_init
    is_built := false }

/-- The page disk_manager_alloc_page hands to the insert fallback: a fresh
page carrying the next page id and the oracle's track, stamped with the
object's centroid. -/
def si_stamped_page (st : SpatialIndex) (assigned : SpatialObject)
    (choice : AllocChoice) : Page :=
  { page_create st.next_page_id choice.new_track_id with
    header := { (page_create st.next_page_id choice.new_track_id).header with
                centroid := assigned.centroid } }

/-- The fresh-page path of spatial_index_insert: the object is added to the
freshly allocated page (a fresh page is never full, so the error arm only
mirrors the C control flow) and the page's derived fields are recomputed. -/
def si_fresh_page (st : SpatialIndex) (assigned : SpatialObject)
    (choice : AllocChoice) : Page :=
  match page_add_object (si_stamped_page st assigned choice) assigned with
  | .ok pg1 => page_update_derived pg1
  | .error _ => si_stamped_page st assigned choice

/-- The pool mutation of spatial_index_insert (get_page_for_insert,
page_add_object, the page-full fallback through disk_manager_alloc_page, and
page_update_derived on the touched page), returning the new pool and the
next free page id. -/
def si_insert_pool (st : SpatialIndex) (assigned : SpatialObject)
    (choice : AllocChoice) : List Page × ℕ :=
  match choice.use_page with
  | some i =>
      match st.pool[i]? with
      | some pg =>
          if page_is_full pg = false then
            match page_add_object pg assigned with
            | .ok pg1 => (st.pool.set i (page_update_derived pg1), st.next_page_id)
            | .error _ => (st.pool ++ [si_fresh_page st assigned choice], st.next_page_id + 1)
          else (st.pool ++ [si_fresh_page st assigned choice], st.next_page_id + 1)
      | none => (st.pool ++ [si_fresh_page st assigned choice], st.next_page_id + 1)
  | none => (st.pool ++ [si_fresh_page st assigned choice], st.next_page_id + 1)

/-- spatial_index.c spatial_index_insert.  Assign the next object id when
the id is zero (spatial_object_update_derived recomputes the carried
centroid and mbr from the geometry, which the embedding already carries);
add to the oracle-chosen non-full page, else to a freshly allocated page;
recompute the touched page's derived fields; expand the index bounds by the
object MBR; drop is_built.  The C also rebuilds the allocation tree, which
only feeds later oracles. -/
def spatial_index_insert (st : SpatialIndex) (obj : SpatialObject)
    (choice : AllocChoice) : SpatialIndex :=
  let assigned := if obj.id = 0 then { obj with id := st.next_object_id } else obj
  let st1 := if obj.id = 0 then { st with next_object_id := st.next_object_id + 1 } else st
  { st1 with pool := (si_insert_pool st1 assigned choice).1
             next_page_id := (si_insert_pool st1 assigned choice).2
             bounds := mbr_expand_mbr st1.bounds assigned.mbr
             is_built := false }

/-- spatial_index.c find_page_for_object: index of the first pool page
holding the object. -/
def find_page_for_object (pool : List Page) (object_id : ℕ) : Option ℕ :=
  pool.findIdx? (fun pg => (page_find_object pg object_id).isSome)

/-- spatial_index.c spatial_index_remove: locate the page by linear scan,
remove the object from it, recompute that page's derived fields, drop
is_built.  The bounds field is not touched.  (The C also rebuilds the
allocation tree.) -/
def spatial_index_remove (st : SpatialIndex) (object_id : ℕ) :
    Except SIError SpatialIndex :=
  match find_page_for_object st.pool object_id with
  | none => .error .not_found
  | some i =>
      match st.pool[i]? with
      | none => .error .not_found
      | some pg =>
          match page_remove_object pg object_id with
          | .error _ => .error .not_found
          | .ok pg1 =>
              .ok { st with pool := st.pool.set i (page_update_derived pg1)
                            is_built := false }

/-- spatial_index.c spatial_index_build: with zero stored objects just set
is_built; otherwise bulk-load the block k-d tree from every stored object's
centroid (pages in pool order, objects in page order) and set is_built.
Block-list and track creation and the page-quadtree rebuild touch neither
the pool pages, the bounds, nor the block tree, and no verified claim reads
them. -/
def spatial_index_build (st : SpatialIndex) : SpatialIndex :=
  let allObjs := st.pool.flatMap Page.objects
  if allObjs.length = 0 then { st with is_built := true }
  else
    let points := allObjs.map (fun o => KDPointData.mk o.centroid o.id o)
    { st with block_tree := kdtree_bulk_load st.block_tree points, is_built := true }

/-- spatial_index.c spatial_index_query_knn, with the caller's result buffer
in-out: k = 0 returns success before the result is cleared; otherwise the
result is cleared, the block tree is queried (an empty tree surfaces as
not_found), and the k entries' payload objects are appended (the data
pointers are the stored objects, never null).  No is_built check occurs. -/
def spatial_index_query_knn (st : SpatialIndex) (p : Point) (k : ℕ)
    (result : List SpatialObject) : Except SIError Unit × List SpatialObject :=
  if k = 0 then (.ok (), result)
  else
    match kdtree_k_nearest st.block_tree p k with
    | .error _ => (.error .not_found, [])
    | .ok entries => (.ok (), entries.map KDPointData.obj)

/-- One public façade operation, for the operation-sequence invariants.
Queries leave the modelled state unchanged (query_range / query_point read
the pool; query_knn reads the block tree; find_adjacent_pages builds only
the page quadtree, which no claim reads). -/
inductive SIOp where
  | insert (obj : SpatialObject) (choice : AllocChoice)
  | bulk_insert (objs : List (SpatialObject × AllocChoice))
  | remove (object_id : ℕ)
  | build
  | query_range (r : MBR)
  | query_point (p : Point)
  | query_knn (p : Point) (k : ℕ)
  deriving DecidableEq, Repr

/-- Run one façade operation (a failed remove leaves the state unchanged,
as the C returns not_found without mutating; bulk_insert is the sequential
fold of inserts). -/
def si_run_op (st : SpatialIndex) (op : SIOp) : SpatialIndex :=
  match op with
  | .insert obj c => spatial_index_insert st obj c
  | .bulk_insert objs => objs.foldl (fun s oc => spatial_index_insert s oc.1 oc.2) st
  | .remove object_id =>
      match spatial_index_remove st object_id with
      | .ok st1 => st1
      | .error _ => st
  | .build => spatial_index_build st
  | .query_range _ => st
  | .query_point _ => st
  | .query_knn _ _ => st

/-- Run a sequence of façade operations from the fresh index. -/
def si_run (ops : List SIOp) : SpatialIndex :=
  ops.foldl si_run_op spatial_index_empty

/-- The MBRs of the objects passed to insert across an operation sequence,
in insertion order. -/
def inserted_mbrs (ops : List SIOp) : List MBR :=
  ops.flatMap fun op =>
    match op with
    | .insert obj _ => [obj.mbr]
    | .bulk_insert objs => objs.map (fun oc => oc.1.mbr)
    | _ => []

/-- The two derived-field equations of spec invariant I1 for one page, plus
the object_count bookkeeping they rest on. -/
def page_inv (pg : Page) : Prop :=
  pg.header.object_count = pg.objects.length ∧
  (0 < pg.header.object_count →
    pg.header.extent = extent_union pg.objects ∧
    pg.header.centroid =
      Point.mk
        ((pg.objects.foldl (fun a o => a + o.centroid.x) 0) / pg.header.object_count)
        ((pg.objects.foldl (fun a o => a + o.centroid.y) 0) / pg.header.object_count))

/- ======================= concrete inputs used by witnesses ======================= -/

/-- A point object at (5, 5), used by witness theorems. -/
def wObj1 : SpatialObject := ⟨1, .point, ⟨5, 5⟩, mbr_create 5 5 5 5⟩

/-- A point object at (40, 40), used by witness theorems. -/
def wObj2 : SpatialObject := ⟨2, .point, ⟨40, 40⟩, mbr_create 40 40 40 40⟩

/-- A two-page pool whose page extents are the unions of their object MBRs,
used by the C2 witness. -/
def wPool : List Page :=
  [ { header := { page_id := 1, track_id := 1, object_count := 1, flags := 1,
                  extent := extent_union [wObj1], centroid := ⟨5, 5⟩, checksum := 0 }
      objects := [wObj1]
      object_capacity := MAX_OBJECTS_PER_PAGE }
  , { header := { page_id := 2, track_id := 1, object_count := 1, flags := 1,
                  extent := extent_union [wObj2], centroid := ⟨40, 40⟩, checksum := 0 }
      objects := [wObj2]
      object_capacity := MAX_OBJECTS_PER_PAGE } ]

/-- A three-page pool on tracks 1, 1, 2, used by the C6 witness. -/
def wPool3 : List Page := [page_create 1 1, page_create 2 1, page_create 3 2]

/-- The page-id list scanned by the C6 witness. -/
def wIds : List ℕ := [1, 2, 3]

/-- Root quadtree for the C1 trace: bounds (0,0)-(100,100), node capacity 2,
max depth 10. -/
def wQT0 : QuadTree := quadtree_create (mbr_create 0 0 100 100) 2 10

/-- Quadtree after inserting item 1, whose bounds (40,40)-(60,60) straddle
the future split lines. -/
def wQT1 : QuadTree :=
  { root := .leaf (mbr_create 0 0 100 100) [⟨1, mbr_create 40 40 60 60, ⟨50, 50⟩⟩]
    node_capacity := 2
    max_depth := 10
    total_items := 1 }

/-- Quadtree after also inserting item 2, contained in the SW quadrant. -/
def wQT2 : QuadTree :=
  { root := .leaf (mbr_create 0 0 100 100)
      [⟨1, mbr_create 40 40 60 60, ⟨50, 50⟩⟩, ⟨2, mbr_create 10 10 20 20, ⟨15, 15⟩⟩]
    node_capacity := 2
    max_depth := 10
    total_items := 2 }

/-- Quadtree after inserting item 3 (also inside SW): the root leaf split,
items 2 and 3 ended up in the SW child, and item 1 is in no node. -/
def wQT3 : QuadTree :=
  { root := .node (mbr_create 0 0 100 100) []
      (.leaf (mbr_create 0 50 50 100) [])
      (.leaf (mbr_create 50 50 100 100) [])
      (.leaf (mbr_create 0 0 50 50)
        [⟨2, mbr_create 10 10 20 20, ⟨15, 15⟩⟩, ⟨3, mbr_create 5 5 15 15, ⟨10, 10⟩⟩])
      (.leaf (mbr_create 50 0 100 50) [])
    node_capacity := 2
    max_depth := 10
    total_items := 3 }

/-- A point object at the origin with unassigned id, for façade traces. -/
def wO1 : SpatialObject := ⟨0, .point, ⟨0, 0⟩, mbr_create 0 0 0 0⟩

/-- A point object at (10, 10) with unassigned id, for façade traces. -/
def wO2 : SpatialObject := ⟨0, .point, ⟨10, 10⟩, mbr_create 10 10 10 10⟩

/-- Façade trace for the C7 counterexample: insert, build, insert again —
the index is dirty (is_built = false) and the block tree is stale. -/
def wSt7 : SpatialIndex :=
  si_run [.insert wO1 ⟨none, 1⟩, .build, .insert wO2 ⟨some 0, 1⟩]

/-- Façade trace for the C4 counterexample: insert two points, then remove
the second (object ids are assigned 1 and 2). -/
def wSt4 : SpatialIndex :=
  si_run [.insert wO1 ⟨none, 1⟩, .insert wO2 ⟨some 0, 1⟩, .remove 2]

/-- Operation sequence for the C3 and C4 witnesses. -/
def wOps3 : List SIOp := [.insert wO1 ⟨none, 1⟩, .insert wO2 ⟨some 0, 1⟩]

/-- The five objects of the kNN witness scenario (spec section 8,
scenario 2). -/
def wKnnObjs : List SpatialObject :=
  [⟨1, .point, ⟨0, 0⟩, mbr_create 0 0 0 0⟩,
   ⟨2, .point, ⟨1, 1⟩, mbr_create 1 1 1 1⟩,
   ⟨3, .point, ⟨2, 2⟩, mbr_create 2 2 2 2⟩,
   ⟨4, .point, ⟨10, 10⟩, mbr_create 10 10 10 10⟩,
   ⟨5, .point, ⟨20, 20⟩, mbr_create 20 20 20 20⟩]

/-- An index state holding the five kNN witness objects on one page. -/
def wKnnSt : SpatialIndex :=
  { spatial_index_empty with
    pool := [{ header := { page_id := 1, track_id := 1, object_count := 5, flags := 1,
                           extent := extent_union wKnnObjs, centroid := ⟨0, 0⟩, checksum := 0 }
               objects := wKnnObjs
               object_capacity := MAX_OBJECTS_PER_PAGE }] }

/-- A pool for the C9 counterexample: page 1 is pinned, page 2 is resident
and unpinned. -/
def wPool9 : List Page :=
  [ { page_create 1 1 with
      header := { (page_create 1 1).header with
                  flags := PAGE_STATUS_ALLOCATED ||| PAGE_STATUS_PINNED } }
  , page_create 2 1 ]

/-- A full capacity-1 cache whose only (LRU-tail) entry is the pinned page 1. -/
def wCache9 : PageCache := { entries := [1], count := 1, capacity := 1 }

/-- A one-object page with consistent header, used by the C8 witness. -/
def wPage8 : Page :=
  { header := { page_id := 7, track_id := 3, object_count := 1, flags := 5,
                extent := mbr_create 5 5 5 5, centroid := ⟨5, 5⟩, checksum := 12345 }
    objects := [wObj1]
    object_capacity := MAX_OBJECTS_PER_PAGE }

deriving instance DecidableEq for Except

/- ======================= theorems ======================= -/

section

/- Batteries marks the Rat field operations irreducible for the elaborator;
re-enable unfolding locally so that concrete rational computations can be
settled by kernel evaluation (the kernel itself never honours reducibility
attributes, so this changes no proof obligations). -/
set_option allowUnsafeReducibility true
attribute [local semireducible] Rat.add Rat.mul Rat.sub Rat.div Rat.inv Rat.neg
set_option maxRecDepth 100000

theorem mbr_intersects_iff (a b : MBR) :
    mbr_intersects a b = true ↔
      mbr_is_empty a = false ∧ mbr_is_empty b = false ∧
      b.min_x ≤ a.max_x ∧ a.min_x ≤ b.max_x ∧
      b.min_y ≤ a.max_y ∧ a.min_y ≤ b.max_y := by
  simp only [mbr_intersects]
  by_cases ha : mbr_is_empty a <;> by_cases hb : mbr_is_empty b <;>
    simp [ha, hb, not_or, not_lt]
  tauto

theorem mbr_expand_mbr_min_x_le (m o : MBR) : (mbr_expand_mbr m o).min_x ≤ m.min_x := by
  simp only [mbr_expand_mbr]
  split
  · exact le_refl _
  · dsimp only
    split <;> simp_all <;> linarith

theorem mbr_expand_mbr_min_y_le (m o : MBR) : (mbr_expand_mbr m o).min_y ≤ m.min_y := by
  simp only [mbr_expand_mbr]
  split
  · exact le_refl _
  · dsimp only
    split <;> simp_all <;> linarith

theorem mbr_expand_mbr_max_x_ge (m o : MBR) : m.max_x ≤ (mbr_expand_mbr m o).max_x := by
  simp only [mbr_expand_mbr]
  split
  · exact le_refl _
  · dsimp only
    split <;> simp_all <;> linarith

theorem mbr_expand_mbr_max_y_ge (m o : MBR) : m.max_y ≤ (mbr_expand_mbr m o).max_y := by
  simp only [mbr_expand_mbr]
  split
  · exact le_refl _
  · dsimp only
    split <;> simp_all <;> linarith

/-- Once a non-empty rectangle is folded into an accumulator, the accumulator
covers its x/y intervals. -/
theorem mbr_expand_mbr_absorbs (m o : MBR) (ho : mbr_is_empty o = false) :
    (mbr_expand_mbr m o).min_x ≤ o.min_x ∧ o.max_x ≤ (mbr_expand_mbr m o).max_x ∧
    (mbr_expand_mbr m o).min_y ≤ o.min_y ∧ o.max_y ≤ (mbr_expand_mbr m o).max_y := by
  simp only [mbr_expand_mbr, ho, Bool.false_eq_true, if_false]
  refine ⟨?_, ?_, ?_, ?_⟩ <;> (split <;> linarith)

theorem mbr_is_empty_false_iff (m : MBR) :
    mbr_is_empty m = false ↔ m.min_x ≤ m.max_x ∧ m.min_y ≤ m.max_y := by
  simp [mbr_is_empty, not_lt, not_or]

theorem foldl_expand_min_x_le (objs : List SpatialObject) (m : MBR) :
    (objs.foldl (fun acc o => mbr_expand_mbr acc o.mbr) m).min_x ≤ m.min_x := by
  induction objs generalizing m with
  | nil => exact le_refl _
  | cons a tl ih =>
      exact le_trans (ih (mbr_expand_mbr m a.mbr)) (mbr_expand_mbr_min_x_le m a.mbr)

theorem foldl_expand_min_y_le (objs : List SpatialObject) (m : MBR) :
    (objs.foldl (fun acc o => mbr_expand_mbr acc o.mbr) m).min_y ≤ m.min_y := by
  induction objs generalizing m with
  | nil => exact le_refl _
  | cons a tl ih =>
      exact le_trans (ih (mbr_expand_mbr m a.mbr)) (mbr_expand_mbr_min_y_le m a.mbr)

theorem foldl_expand_max_x_ge (objs : List SpatialObject) (m : MBR) :
    m.max_x ≤ (objs.foldl (fun acc o => mbr_expand_mbr acc o.mbr) m).max_x := by
  induction objs generalizing m with
  | nil => exact le_refl _
  | cons a tl ih =>
      exact le_trans (mbr_expand_mbr_max_x_ge m a.mbr) (ih (mbr_expand_mbr m a.mbr))

theorem foldl_expand_max_y_ge (objs : List SpatialObject) (m : MBR) :
    m.max_y ≤ (objs.foldl (fun acc o => mbr_expand_mbr acc o.mbr) m).max_y := by
  induction objs generalizing m with
  | nil => exact le_refl _
  | cons a tl ih =>
      exact le_trans (mbr_expand_mbr_max_y_ge m a.mbr) (ih (mbr_expand_mbr m a.mbr))

/-- The fold underlying extent computation absorbs the coordinate span of
every member whose MBR is non-empty, for any start accumulator. -/
theorem foldl_expand_absorbs (objs : List SpatialObject) (m : MBR) (o : SpatialObject)
    (ho : o ∈ objs) (hne : mbr_is_empty o.mbr = false) :
    (objs.foldl (fun acc x => mbr_expand_mbr acc x.mbr) m).min_x ≤ o.mbr.min_x ∧
    o.mbr.max_x ≤ (objs.foldl (fun acc x => mbr_expand_mbr acc x.mbr) m).max_x ∧
    (objs.foldl (fun acc x => mbr_expand_mbr acc x.mbr) m).min_y ≤ o.mbr.min_y ∧
    o.mbr.max_y ≤ (objs.foldl (fun acc x => mbr_expand_mbr acc x.mbr) m).max_y := by
  induction objs generalizing m with
  | nil => cases ho
  | cons a tl ih =>
      rcases List.mem_cons.mp ho with rfl | hmem
      · obtain ⟨h1, h2, h3, h4⟩ := mbr_expand_mbr_absorbs m o.mbr hne
        simp only [List.foldl_cons]
        exact ⟨le_trans (foldl_expand_min_x_le tl _) h1,
               le_trans h2 (foldl_expand_max_x_ge tl _),
               le_trans (foldl_expand_min_y_le tl _) h3,
               le_trans h4 (foldl_expand_max_y_ge tl _)⟩
      · simpa using ih (mbr_expand_mbr m a.mbr) hmem

/-- If an object MBR intersects the range then the page extent computed as
the MBR-union of the page objects intersects the range too. -/
theorem extent_union_intersects (objs : List SpatialObject) (R : MBR) (o : SpatialObject)
    (ho : o ∈ objs) (h : mbr_intersects o.mbr R = true) :
    mbr_intersects (extent_union objs) R = true := by
  rw [mbr_intersects_iff] at h ⊢
  obtain ⟨hoe, hRe, h1, h2, h3, h4⟩ := h
  obtain ⟨hx, hy⟩ := (mbr_is_empty_false_iff o.mbr).mp hoe
  obtain ⟨a1, a2, a3, a4⟩ := foldl_expand_absorbs objs mbr_empty o ho hoe
  simp only [extent_union]
  refine ⟨(mbr_is_empty_false_iff _).mpr ⟨by linarith, by linarith⟩, hRe,
          by linarith, by linarith, by linarith, by linarith⟩

/-- C2: in every index state in which each page's extent equals the MBR-union
of its objects, spatial_index_query_range over any query rectangle returns
exactly the stored objects whose MBR intersects the rectangle (closed
intersection), each occurrence exactly once (list equality with the global
filter): the page-extent prefilter misses nothing and admits nothing. -/
theorem C2_query_range_exact (pool : List Page) (R : MBR)
    (h : ∀ pg ∈ pool, pg.header.extent = extent_union pg.objects) :
    spatial_index_query_range pool R =
      (pool.flatMap Page.objects).filter (fun o => mbr_intersects o.mbr R) := by
  induction pool with
  | nil => rfl
  | cons pg rest ih =>
      have hpg := h pg (List.mem_cons_self pg rest)
      have hrest : ∀ p ∈ rest, p.header.extent = extent_union p.objects :=
        fun p hp => h p (List.mem_cons_of_mem pg hp)
      simp only [spatial_index_query_range, page_pool_query_region, List.filter_cons,
                 List.flatMap_cons, List.filter_append] at *
      by_cases hc : mbr_intersects pg.header.extent R = true
      · simp only [hc, if_true, List.flatMap_cons, ih hrest]
      · have hnone : pg.objects.filter (fun o => mbr_intersects o.mbr R) = [] := by
          rw [List.filter_eq_nil_iff]
          intro o ho hcontra
          exact hc (hpg ▸ extent_union_intersects pg.objects R o ho hcontra)
        rw [Bool.not_eq_true] at hc
        simp only [hc, Bool.false_eq_true, if_false, hnone, List.nil_append, ih hrest]

set_option maxRecDepth 40000 in
/-- Witness for C2 at a concrete two-page pool and query rectangle: the
hypothesis holds, the theorem applies, and the query evaluates to exactly
the one object whose MBR meets the rectangle. -/
theorem C2_query_range_exact_witness :
    (∀ pg ∈ wPool, pg.header.extent = extent_union pg.objects) ∧
    spatial_index_query_range wPool (mbr_create 0 0 10 10) =
      (wPool.flatMap Page.objects).filter
        (fun o => mbr_intersects o.mbr (mbr_create 0 0 10 10)) ∧
    spatial_index_query_range wPool (mbr_create 0 0 10 10) = [wObj1] := by
  have h : ∀ pg ∈ wPool, pg.header.extent = extent_union pg.objects := by decide
  exact ⟨h, C2_query_range_exact wPool (mbr_create 0 0 10 10) h, by decide⟩

/-- When every id in the list resolves, the seek scan over ids equals the
seek scan over the resolved pages' track ids, from any accumulator. -/
theorem seek_fold_eq (pool : List Page) (ids : List ℕ) (acc : ℕ × ℕ)
    (h : ∀ pid ∈ ids, (page_pool_get pool pid).isSome = true) :
    ids.foldl
      (fun acc pid =>
        match page_pool_get pool pid with
        | none => acc
        | some pg => seek_step acc pg.header.track_id) acc =
    ((ids.filterMap (page_pool_get pool)).map (fun pg => pg.header.track_id)).foldl
      seek_step acc := by
  induction ids generalizing acc with
  | nil => rfl
  | cons pid tl ih =>
      obtain ⟨pg, hpg⟩ := Option.isSome_iff_exists.mp (h pid (List.mem_cons_self pid tl))
      simp only [List.foldl_cons, List.filterMap_cons, hpg, List.map_cons]
      exact ih _ (fun p hp => h p (List.mem_cons_of_mem pid hp))

theorem seek_fold_fst_le (tracks : List ℕ) (acc : ℕ × ℕ) :
    (tracks.foldl seek_step acc).1 ≤ acc.1 + tracks.length := by
  induction tracks generalizing acc with
  | nil => simp
  | cons t tl ih =>
      simp only [List.foldl_cons, List.length_cons]
      refine le_trans (ih (seek_step acc t)) ?_
      have : (seek_step acc t).1 ≤ acc.1 + 1 := by
        simp only [seek_step]
        split <;> omega
      omega

theorem filterMap_get_length (pool : List Page) (ids : List ℕ)
    (h : ∀ pid ∈ ids, (page_pool_get pool pid).isSome = true) :
    (ids.filterMap (page_pool_get pool)).length = ids.length := by
  induction ids with
  | nil => rfl
  | cons pid tl ih =>
      obtain ⟨pg, hpg⟩ := Option.isSome_iff_exists.mp (h pid (List.mem_cons_self pid tl))
      simp only [List.filterMap_cons, hpg, List.length_cons]
      rw [ih (fun p hp => h p (List.mem_cons_of_mem pid hp))]

/-- C6: when every page id in the list resolves to a pool page, the seek
estimator returns exactly the track-transition count of the resolved list in
its given order (last = 0 start, increment iff the track changes and last is
nonzero), and for a non-empty list the result is at most count - 1. -/
theorem C6_estimate_seeks (pool : List Page) (ids : List ℕ)
    (h : ∀ pid ∈ ids, (page_pool_get pool pid).isSome = true) :
    disk_manager_estimate_seeks pool ids =
      track_transition_count
        ((ids.filterMap (page_pool_get pool)).map (fun pg => pg.header.track_id)) ∧
    (ids ≠ [] → disk_manager_estimate_seeks pool ids ≤ ids.length - 1) := by
  have heq : disk_manager_estimate_seeks pool ids =
      track_transition_count
        ((ids.filterMap (page_pool_get pool)).map (fun pg => pg.header.track_id)) := by
    simp only [disk_manager_estimate_seeks, track_transition_count]
    rw [seek_fold_eq pool ids (0, 0) h]
  refine ⟨heq, fun hne => ?_⟩
  rw [heq]
  have hlen : ((ids.filterMap (page_pool_get pool)).map
      (fun pg => pg.header.track_id)).length = ids.length := by
    rw [List.length_map]
    exact filterMap_get_length pool ids h
  have htne : (ids.filterMap (page_pool_get pool)).map (fun pg => pg.header.track_id) ≠ [] := by
    intro hcon
    apply hne
    rw [hcon] at hlen
    exact List.length_eq_zero.mp hlen.symm
  obtain ⟨t, tl, htl⟩ := List.exists_cons_of_ne_nil htne
  rw [htl] at hlen ⊢
  have hstep : seek_step (0, 0) t = (0, t) := by
    simp [seek_step]
  simp only [track_transition_count, List.foldl_cons, hstep]
  have := seek_fold_fst_le tl (0, t)
  simp only [List.length_cons] at hlen
  omega

/-- Witness for C6: a three-page pool on tracks 1, 1, 2 and the id list
1, 2, 3; every id resolves, the estimator matches the transition count, the
bound holds, and the value is 1. -/
theorem C6_estimate_seeks_witness :
    (∀ pid ∈ wIds, (page_pool_get wPool3 pid).isSome = true) ∧
    disk_manager_estimate_seeks wPool3 wIds =
      track_transition_count
        ((wIds.filterMap (page_pool_get wPool3)).map (fun pg => pg.header.track_id)) ∧
    (wIds ≠ [] → disk_manager_estimate_seeks wPool3 wIds ≤ wIds.length - 1) ∧
    disk_manager_estimate_seeks wPool3 wIds = 1 := by
  have h : ∀ pid ∈ wIds, (page_pool_get wPool3 pid).isSome = true := by decide
  obtain ⟨h1, h2⟩ := C6_estimate_seeks wPool3 wIds h
  exact ⟨h, h1, h2, by decide⟩

/-- Reading back exactly the records the serializer wrote recovers the
projected object records in order. -/
theorem read_object_records_roundtrip (objs : List SpatialObject) :
    read_object_records objs.length
      (objs.flatMap (fun o => [.u64 o.id, .gty o.type, .pt o.centroid, .box o.mbr])) =
    some (objs.map objRec_of) := by
  induction objs with
  | nil => rfl
  | cons o tl ih =>
      have hflat : (o :: tl).flatMap
          (fun o => [SerField.u64 o.id, .gty o.type, .pt o.centroid, .box o.mbr]) =
          SerField.u64 o.id :: SerField.gty o.type :: SerField.pt o.centroid ::
          SerField.box o.mbr ::
          tl.flatMap (fun o => [SerField.u64 o.id, .gty o.type, .pt o.centroid, .box o.mbr]) :=
        rfl
      rw [List.length_cons, hflat]
      simp only [read_object_records]
      rw [ih]
      rfl

/-- C8: for every page whose object_count matches its stored objects and is
at most MAX_OBJECTS_PER_PAGE, deserializing the serialized buffer succeeds
and recovers the page header (page_id, track_id, object_count, flags,
extent, centroid, checksum) verbatim and, for each object in order, its id,
type, centroid and MBR. -/
theorem C8_serialize_roundtrip (page : Page)
    (hc : page.header.object_count = page.objects.length)
    (hmax : page.header.object_count ≤ MAX_OBJECTS_PER_PAGE) :
    ∃ buf, page_serialize page PAGE_SIZE = .ok buf ∧
      page_deserialize buf PAGE_SIZE = .ok (page.header, page.objects.map objRec_of) := by
  refine ⟨_, rfl, ?_⟩
  have hsz : ¬ PAGE_SIZE < PAGE_SIZE := lt_irrefl _
  have htake : page.objects.take page.header.object_count = page.objects := by
    rw [hc]
    simp
  have hread := read_object_records_roundtrip page.objects
  rw [← hc] at hread
  simp only [page_serialize, page_deserialize, hsz, if_false, htake, hread,
             if_neg (Nat.not_lt.mpr hmax)]

/-- Witness for C8 at a concrete one-object page: the hypotheses hold, and
the round trip recovers the header and the object record of wObj1. -/
theorem C8_serialize_roundtrip_witness :
    wPage8.header.object_count = wPage8.objects.length ∧
    wPage8.header.object_count ≤ MAX_OBJECTS_PER_PAGE ∧
    (∃ buf, page_serialize wPage8 PAGE_SIZE = .ok buf ∧
      page_deserialize buf PAGE_SIZE = .ok (wPage8.header, wPage8.objects.map objRec_of)) ∧
    wPage8.objects.map objRec_of = [⟨1, .point, ⟨5, 5⟩, mbr_create 5 5 5 5⟩] :=
  ⟨rfl, by decide, C8_serialize_roundtrip wPage8 rfl (by decide), rfl⟩

/-- C9 (code bug): eviction does not terminate when the LRU tail is pinned.
With a capacity-1 cache holding only pinned page 1, the eviction loop makes
no progress for any amount of fuel, and page_cache_get of pool-resident
page 2 (a miss on a full cache) therefore never returns: the C while loop
re-reads the pinned tail forever, contradicting the claimed skip-and-evict
behaviour and the claimed capacity restoration. -/
theorem C9_evict_pinned_tail_diverges :
    (∀ fuel, page_cache_evict_loop wPool9 fuel wCache9 1 = none) ∧
    (∀ fuel, page_cache_get wPool9 fuel wCache9 2 = none) := by
  have hloop : ∀ fuel, page_cache_evict_loop wPool9 fuel wCache9 1 = none := by
    intro fuel
    induction fuel with
    | zero => rfl
    | succ n ih =>
        have hstep : page_cache_evict_loop wPool9 (n + 1) wCache9 1 =
            page_cache_evict_loop wPool9 n wCache9 1 := rfl
        rw [hstep, ih]
  refine ⟨hloop, fun fuel => ?_⟩
  have hmiss : wCache9.entries.contains 2 = false := rfl
  simp only [page_cache_get, hmiss, Bool.false_eq_true, if_false]
  have hget : page_pool_get wPool9 2 = some (page_create 2 1) := rfl
  rw [hget]
  rw [if_pos (by trivial : wCache9.count ≥ wCache9.capacity), hloop fuel]

/-- C1 (code bug): a leaf split loses straddling items.  Inserting the
straddler (item 1), then item 2, leaves both retrievable; the third insert
splits the root leaf, moves items 2 and 3 into the SW child, zeroes the
parent item list, and item 1 — which no child entirely contains — is gone
from every node, while total_items still counts it: the multiset of items
reachable in the tree shrinks across the split. -/
theorem C1_split_drops_straddler :
    quadtree_insert 4 wQT0 1 (mbr_create 40 40 60 60) = some (.ok wQT1) ∧
    quadtree_insert 4 wQT1 2 (mbr_create 10 10 20 20) = some (.ok wQT2) ∧
    (quadtree_query_range wQT2 (mbr_create 0 0 100 100)).map QTItem.id = [1, 2] ∧
    quadtree_insert 6 wQT2 3 (mbr_create 5 5 15 15) = some (.ok wQT3) ∧
    wQT3.total_items = 3 ∧
    (quadtree_query_range wQT3 (mbr_create 0 0 100 100)).map QTItem.id = [2, 3] := by
  decide

/-- C10: query_knn with k = 0 returns success and leaves the caller's result
buffer exactly as it was; every call with k > 0 clears the result first, so
its outcome is independent of whatever the buffer held. -/
theorem C10_knn_k0_frame (st : SpatialIndex) (p : Point) (buf : List SpatialObject) :
    spatial_index_query_knn st p 0 buf = (.ok (), buf) ∧
    ∀ k, k ≠ 0 → spatial_index_query_knn st p k buf = spatial_index_query_knn st p k [] := by
  refine ⟨rfl, fun k hk => ?_⟩
  simp only [spatial_index_query_knn, if_neg hk]

/-- Witness for C10: on the fresh index with a stale one-object buffer, the
k = 0 call returns success with the buffer intact, the k = 1 call's outcome
is buffer-independent, and here it fails not_found with a cleared buffer. -/
theorem C10_knn_k0_frame_witness :
    spatial_index_query_knn spatial_index_empty ⟨0, 0⟩ 0 [wObj1] = (.ok (), [wObj1]) ∧
    spatial_index_query_knn spatial_index_empty ⟨0, 0⟩ 1 [wObj1] =
      spatial_index_query_knn spatial_index_empty ⟨0, 0⟩ 1 [] ∧
    spatial_index_query_knn spatial_index_empty ⟨0, 0⟩ 1 [wObj1] =
      (.error .not_found, []) := by
  refine ⟨(C10_knn_k0_frame spatial_index_empty ⟨0, 0⟩ [wObj1]).1,
          (C10_knn_k0_frame spatial_index_empty ⟨0, 0⟩ [wObj1]).2 1 (by decide),
          by decide⟩

/-- C7 (amended): query_knn consults the block tree, never is_built.  It
never returns the not_built error; with k > 0 it fails — with not_found —
exactly when the block k-d tree is empty, and succeeds whenever the tree is
non-empty (even when is_built is false and the tree is stale); with k = 0
it succeeds immediately. -/
theorem C7_knn_ignores_is_built (st : SpatialIndex) (p : Point) (k : ℕ)
    (buf : List SpatialObject) :
    ((spatial_index_query_knn st p k buf).1 ≠ .error .not_built) ∧
    (k ≠ 0 → (((spatial_index_query_knn st p k buf).1 = .error .not_found) ↔
      st.block_tree.root = KDNodeT.nil)) ∧
    ((k = 0 ∨ st.block_tree.root ≠ KDNodeT.nil) →
      (spatial_index_query_knn st p k buf).1 = .ok ()) := by
  by_cases hk : k = 0
  · subst hk
    exact ⟨by simp [spatial_index_query_knn], fun h => absurd rfl h, fun _ => rfl⟩
  · by_cases hr : st.block_tree.root = KDNodeT.nil
    · have h1 : spatial_index_query_knn st p k buf = (.error .not_found, []) := by
        simp [spatial_index_query_knn, if_neg hk, kdtree_k_nearest, hr]
      rw [h1]
      exact ⟨by simp, fun _ => by simpa using hr, fun hor => by
        rcases hor with h | h
        · exact absurd h hk
        · exact absurd hr h⟩
    · have h1 : (spatial_index_query_knn st p k buf).1 = .ok () := by
        simp [spatial_index_query_knn, if_neg hk, kdtree_k_nearest, hr]
      rw [h1]
      exact ⟨by simp, fun _ => by simp [hr], fun _ => rfl⟩

/-- Witness for C7 (amended) at the stale-tree state wSt7: k = 1 is nonzero,
the tree is non-empty, and the theorem yields success; evaluation shows the
call indeed succeeds. -/
theorem C7_knn_ignores_is_built_witness :
    (1 ≠ 0) ∧ wSt7.block_tree.root ≠ KDNodeT.nil ∧
    (spatial_index_query_knn wSt7 ⟨0, 0⟩ 1 []).1 = .ok () := by
  refine ⟨by decide, by decide, (C7_knn_ignores_is_built wSt7 ⟨0, 0⟩ 1 []).2.2 (Or.inr (by decide))⟩

/-- C7 counterexample: after insert, build, insert the index is dirty
(is_built = false), yet query_knn with k = 1 succeeds — returning the stale
tree's object — instead of failing with the not_built error as claimed. -/
theorem C7_counterexample_knn_succeeds_unbuilt :
    wSt7.is_built = false ∧
    (spatial_index_query_knn wSt7 ⟨0, 0⟩ 1 []).1 = .ok () ∧
    (spatial_index_query_knn wSt7 ⟨0, 0⟩ 1 []).2 =
      [⟨1, .point, ⟨0, 0⟩, mbr_create 0 0 0 0⟩] := by
  decide

/-- The bounds of one façade step equal the fold of the step's inserted
MBRs over the incoming bounds (inserts expand; nothing else touches
bounds). -/
theorem si_run_op_bounds (st : SpatialIndex) (op : SIOp) :
    (si_run_op st op).bounds =
      (inserted_mbrs [op]).foldl mbr_expand_mbr st.bounds := by
  cases op with
  | insert obj c =>
      by_cases h : obj.id = 0 <;>
        simp [si_run_op, spatial_index_insert, inserted_mbrs, h]
  | bulk_insert objs =>
      induction objs generalizing st with
      | nil => simp [si_run_op, inserted_mbrs]
      | cons oc tl ih =>
          have htl := ih (spatial_index_insert st oc.1 oc.2)
          simp only [si_run_op, List.foldl_cons] at htl ⊢
          rw [htl]
          by_cases h : oc.1.id = 0 <;>
            simp [spatial_index_insert, inserted_mbrs, h]
  | remove object_id =>
      simp only [si_run_op, inserted_mbrs]
      cases hrem : spatial_index_remove st object_id with
      | ok st1 =>
          simp only [spatial_index_remove] at hrem
          split at hrem
          · exact absurd hrem (by simp)
          · split at hrem
            · exact absurd hrem (by simp)
            · split at hrem
              · exact absurd hrem (by simp)
              · cases hrem
                simp [List.flatMap_nil, List.foldl_nil]
      | error e => simp
  | build =>
      simp only [si_run_op, spatial_index_build, inserted_mbrs]
      split <;> simp
  | query_range r => simp [si_run_op, inserted_mbrs]
  | query_point p => simp [si_run_op, inserted_mbrs]
  | query_knn p k => simp [si_run_op, inserted_mbrs]

/-- C4 (amended): after every operation sequence the index bounds equal the
MBR-union (the expand fold) of the MBRs of every object ever inserted, in
insertion order — inserts expand bounds and removals leave them unchanged,
so bounds cover, but need not equal, the union over the currently stored
objects. -/
theorem C4_bounds_union_of_inserted (ops : List SIOp) :
    (si_run ops).bounds = (inserted_mbrs ops).foldl mbr_expand_mbr mbr_empty := by
  suffices h : ∀ (st : SpatialIndex) (ops : List SIOp),
      (ops.foldl si_run_op st).bounds =
        (inserted_mbrs ops).foldl mbr_expand_mbr st.bounds by
    exact h spatial_index_empty ops
  intro st ops
  induction ops generalizing st with
  | nil => rfl
  | cons op tl ih =>
      simp only [List.foldl_cons, inserted_mbrs, List.flatMap_cons, List.foldl_append]
      rw [ih (si_run_op st op), si_run_op_bounds st op]
      simp [inserted_mbrs]

/-- C4 counterexample: insert points at (0,0) and (10,10), then remove the
second.  The code's bounds stay (0,0)-(10,10): not the MBR-union
(0,0)-(0,0) of the one remaining stored object, refuting the claim that
removal shrinks bounds back. -/
theorem C4_counterexample_remove_keeps_bounds :
    wSt4.bounds = mbr_create 0 0 10 10 ∧
    extent_union (wSt4.pool.flatMap Page.objects) = mbr_create 0 0 0 0 ∧
    wSt4.bounds ≠ extent_union (wSt4.pool.flatMap Page.objects) := by
  decide

/-- page_update_derived establishes the page invariant whenever the count
bookkeeping holds: it writes exactly the extent union and the centroid
mean. -/
theorem page_inv_update_derived (pg : Page)
    (h : pg.header.object_count = pg.objects.length) :
    page_inv (page_update_derived pg) := by
  refine ⟨h, fun hpos => ⟨rfl, ?_⟩⟩
  have hp : 0 < pg.header.object_count := hpos
  simp only [page_update_derived]
  simp [hp]

/-- page_add_object preserves the count bookkeeping. -/
theorem page_add_object_count (pg : Page) (obj : SpatialObject) (pg1 : Page)
    (h : page_add_object pg obj = .ok pg1)
    (hc : pg.header.object_count = pg.objects.length) :
    pg1.header.object_count = pg1.objects.length := by
  unfold page_add_object at h
  split at h
  · exact absurd h (by simp)
  · cases h
    simp [hc]

/-- A freshly created page satisfies the invariant (it is empty). -/
theorem page_create_inv (page_id track_id : ℕ) : page_inv (page_create page_id track_id) := by
  constructor
  · rfl
  · intro h
    simp [page_create] at h

/-- The fresh-page insert path yields an invariant-satisfying page. -/
theorem si_fresh_page_inv (st : SpatialIndex) (assigned : SpatialObject)
    (choice : AllocChoice) : page_inv (si_fresh_page st assigned choice) := by
  unfold si_fresh_page
  split
  · rename_i pg1 hadd
    exact page_inv_update_derived pg1 (page_add_object_count _ assigned pg1 hadd rfl)
  · constructor
    · rfl
    · intro h
      simp [si_stamped_page, page_create] at h

/-- The insert pool mutation preserves the page invariant on every page. -/
theorem si_insert_pool_inv (st : SpatialIndex) (assigned : SpatialObject)
    (choice : AllocChoice) (h : ∀ pg ∈ st.pool, page_inv pg) :
    ∀ pg ∈ (si_insert_pool st assigned choice).1, page_inv pg := by
  have happ : ∀ pg ∈ st.pool ++ [si_fresh_page st assigned choice], page_inv pg := by
    intro pg hpg
    rcases List.mem_append.mp hpg with hmem | hmem
    · exact h pg hmem
    · rw [List.mem_singleton.mp hmem]
      exact si_fresh_page_inv st assigned choice
  unfold si_insert_pool
  split
  · rename_i i
    split
    · rename_i pg0 hget
      split
      · split
        · rename_i pg1 hadd
          intro pg hpg
          rcases List.mem_or_eq_of_mem_set hpg with hmem | rfl
          · exact h pg hmem
          · exact page_inv_update_derived pg1
              (page_add_object_count pg0 assigned pg1 hadd
                (h pg0 (List.getElem?_mem hget)).1)
        · exact happ
      · exact happ
    · exact happ
  · exact happ

/-- The remove mutation yields an invariant-satisfying page for the touched
slot. -/
theorem page_remove_object_inv (pg : Page) (oid : ℕ) (pg1 : Page)
    (h : page_remove_object pg oid = .ok pg1)
    (hc : pg.header.object_count = pg.objects.length) :
    page_inv pg1 := by
  unfold page_remove_object at h
  split at h
  · rename_i hany
    cases h
    obtain ⟨a, ha, hpa⟩ := List.any_eq_true.mp hany
    apply page_inv_update_derived
    simp only
    rw [List.length_eraseP_of_mem ha hpa, hc]
  · exact absurd h (by simp)

/-- spatial_index_remove preserves the page invariant on every page. -/
theorem spatial_index_remove_inv (st : SpatialIndex) (oid : ℕ) (st1 : SpatialIndex)
    (h : spatial_index_remove st oid = .ok st1)
    (hinv : ∀ pg ∈ st.pool, page_inv pg) :
    ∀ pg ∈ st1.pool, page_inv pg := by
  unfold spatial_index_remove at h
  split at h
  · exact absurd h (by simp)
  · split at h
    · exact absurd h (by simp)
    · rename_i i _ pg0 hget
      split at h
      · exact absurd h (by simp)
      · rename_i pg1 hrem
        cases h
        intro pg hpg
        rcases List.mem_or_eq_of_mem_set hpg with hmem | rfl
        · exact hinv pg hmem
        · exact page_inv_update_derived pg1
            (page_remove_object_inv pg0 oid pg1 hrem (hinv pg0 (List.getElem?_mem hget)).1).1

/-- spatial_index_insert preserves the page invariant on every page. -/
theorem spatial_index_insert_inv (st : SpatialIndex) (obj : SpatialObject)
    (choice : AllocChoice) (h : ∀ pg ∈ st.pool, page_inv pg) :
    ∀ pg ∈ (spatial_index_insert st obj choice).pool, page_inv pg := by
  unfold spatial_index_insert
  by_cases hid : obj.id = 0 <;>
    simp only [hid, if_true, if_false, Bool.false_eq_true] <;>
    exact si_insert_pool_inv _ _ _ h

/-- Every façade operation preserves the page invariant on every page. -/
theorem si_run_op_inv (st : SpatialIndex) (op : SIOp)
    (h : ∀ pg ∈ st.pool, page_inv pg) :
    ∀ pg ∈ (si_run_op st op).pool, page_inv pg := by
  cases op with
  | insert obj c => exact spatial_index_insert_inv st obj c h
  | bulk_insert objs =>
      induction objs generalizing st with
      | nil => exact h
      | cons oc tl ih =>
          simp only [si_run_op, List.foldl_cons] at *
          exact ih (spatial_index_insert st oc.1 oc.2)
            (spatial_index_insert_inv st oc.1 oc.2 h)
  | remove oid =>
      simp only [si_run_op]
      split
      · rename_i st1 hok
        exact spatial_index_remove_inv st oid st1 hok h
      · exact h
  | build =>
      simp only [si_run_op, spatial_index_build]
      split <;> exact h
  | query_range r => exact h
  | query_point p => exact h
  | query_knn p k => exact h

/-- C3: after every sequence of public façade operations from the fresh
index, every page with at least one object has its extent equal to the
MBR-union of its objects' MBRs and its centroid equal to the arithmetic mean
of its objects' centroids: every public mutation path restores both derived
fields before returning, even though page_add_object alone expands only the
extent. -/
theorem C3_page_derived_invariant (ops : List SIOp) :
    ∀ pg ∈ (si_run ops).pool, 0 < pg.header.object_count →
      pg.header.extent = extent_union pg.objects ∧
      pg.header.centroid =
        Point.mk
          ((pg.objects.foldl (fun a o => a + o.centroid.x) 0) / pg.header.object_count)
          ((pg.objects.foldl (fun a o => a + o.centroid.y) 0) / pg.header.object_count) := by
  have hrun : ∀ pg ∈ (si_run ops).pool, page_inv pg := by
    have hgen : ∀ (st : SpatialIndex), (∀ pg ∈ st.pool, page_inv pg) →
        ∀ pg ∈ (ops.foldl si_run_op st).pool, page_inv pg := by
      induction ops with
      | nil => exact fun st h => h
      | cons op tl ih =>
          intro st h
          exact ih (si_run_op st op) (si_run_op_inv st op h)
    exact hgen spatial_index_empty (by intro pg hpg; cases hpg)
  intro pg hpg hpos
  exact (hrun pg hpg).2 hpos

/-- Witness for C3: after two concrete inserts, the single resulting page is
in the pool, is non-empty, and the theorem yields its derived-field
equalities; evaluation confirms the concrete extent and centroid. -/
theorem C3_page_derived_invariant_witness :
    ((si_run wOps3).pool.getD 0 (page_create 0 0)) ∈ (si_run wOps3).pool ∧
    0 < ((si_run wOps3).pool.getD 0 (page_create 0 0)).header.object_count ∧
    (((si_run wOps3).pool.getD 0 (page_create 0 0)).header.extent =
      extent_union ((si_run wOps3).pool.getD 0 (page_create 0 0)).objects ∧
     ((si_run wOps3).pool.getD 0 (page_create 0 0)).header.centroid =
      Point.mk
        ((((si_run wOps3).pool.getD 0 (page_create 0 0)).objects.foldl
            (fun a o => a + o.centroid.x) 0) /
          ((si_run wOps3).pool.getD 0 (page_create 0 0)).header.object_count)
        ((((si_run wOps3).pool.getD 0 (page_create 0 0)).objects.foldl
            (fun a o => a + o.centroid.y) 0) /
          ((si_run wOps3).pool.getD 0 (page_create 0 0)).header.object_count)) ∧
    ((si_run wOps3).pool.getD 0 (page_create 0 0)).header.centroid = ⟨5, 5⟩ := by
  have hmem : ((si_run wOps3).pool.getD 0 (page_create 0 0)) ∈ (si_run wOps3).pool := by
    decide
  have hpos : 0 < ((si_run wOps3).pool.getD 0 (page_create 0 0)).header.object_count := by
    decide
  exact ⟨hmem, hpos, C3_page_derived_invariant wOps3 _ hmem hpos, by decide⟩

theorem kd_insert_perm (depth : ℕ) (x : KDPointData) (l : List KDPointData) :
    (kd_insert depth x l).Perm (x :: l) := by
  induction l with
  | nil => exact List.Perm.refl _
  | cons y ys ih =>
      simp only [kd_insert]
      split
      · exact List.Perm.refl _
      · exact (List.Perm.cons y ih).trans (List.Perm.swap x y ys)

theorem kd_sort_perm (depth : ℕ) (l : List KDPointData) : (kd_sort depth l).Perm l := by
  induction l with
  | nil => exact List.Perm.refl _
  | cons x xs ih => exact (kd_insert_perm depth x _).trans (List.Perm.cons x ih)

/-- The preorder point list of a bulk-built tree is a permutation of the
input points, given fuel at least the input length. -/
theorem build_tree_toList_perm (fuel : ℕ) : ∀ (l : List KDPointData) (depth : ℕ),
    l.length ≤ fuel → (build_tree_recursive fuel l depth).toList.Perm l := by
  induction fuel with
  | zero =>
      intro l d h
      rw [List.length_eq_zero.mp (Nat.le_zero.mp h)]
      exact List.Perm.refl _
  | succ n ih =>
      intro l d h
      by_cases hl : l.length = 0
      · rw [List.length_eq_zero.mp hl]
        simp [build_tree_recursive, KDNodeT.toList]
      · have hs : (kd_sort d l).Perm l := kd_sort_perm d l
        have hslen : (kd_sort d l).length = l.length := hs.length_eq
        have hm : l.length / 2 < (kd_sort d l).length := by
          rw [hslen]
          exact Nat.div_lt_self (Nat.pos_of_ne_zero hl) one_lt_two
        have hsplit : (kd_sort d l).take (l.length / 2) ++
            (kd_sort d l).getD (l.length / 2) kdDummy ::
            (kd_sort d l).drop (l.length / 2 + 1) = kd_sort d l := by
          rw [List.getD_eq_getElem _ _ hm, ← List.drop_eq_getElem_cons hm,
              List.take_append_drop]
        have h1 : ((kd_sort d l).take (l.length / 2)).length ≤ n := by
          simp only [List.length_take]
          omega
        have h2 : ((kd_sort d l).drop (l.length / 2 + 1)).length ≤ n := by
          simp only [List.length_drop]
          omega
        have hstep : (build_tree_recursive (n + 1) l d).toList =
            (kd_sort d l).getD (l.length / 2) kdDummy ::
            ((build_tree_recursive n ((kd_sort d l).take (l.length / 2)) (d + 1)).toList ++
             (build_tree_recursive n ((kd_sort d l).drop (l.length / 2 + 1)) (d + 1)).toList) := by
          simp only [build_tree_recursive, hl, if_neg, KDNodeT.toList]
        rw [hstep]
        refine List.Perm.trans ?_ hs
        refine List.Perm.trans (List.Perm.cons _ (List.Perm.append (ih _ _ h1) (ih _ _ h2))) ?_
        have hmid : ((kd_sort d l).getD (l.length / 2) kdDummy ::
            ((kd_sort d l).take (l.length / 2) ++ (kd_sort d l).drop (l.length / 2 + 1))).Perm
            (kd_sort d l) := by
          conv_rhs => rw [← hsplit]
          exact List.perm_middle.symm
        exact hmid

theorem mbr_expand_point_min_x_le (m : MBR) (p : Point) :
    (mbr_expand_point m p).min_x ≤ m.min_x := by
  simp only [mbr_expand_point]
  split <;> linarith

theorem mbr_expand_point_min_y_le (m : MBR) (p : Point) :
    (mbr_expand_point m p).min_y ≤ m.min_y := by
  simp only [mbr_expand_point]
  split <;> linarith

theorem mbr_expand_point_max_x_ge (m : MBR) (p : Point) :
    m.max_x ≤ (mbr_expand_point m p).max_x := by
  simp only [mbr_expand_point]
  split <;> linarith

theorem mbr_expand_point_max_y_ge (m : MBR) (p : Point) :
    m.max_y ≤ (mbr_expand_point m p).max_y := by
  simp only [mbr_expand_point]
  split <;> linarith

theorem mbr_expand_point_absorbs (m : MBR) (p : Point) :
    (mbr_expand_point m p).min_x ≤ p.x ∧ p.x ≤ (mbr_expand_point m p).max_x ∧
    (mbr_expand_point m p).min_y ≤ p.y ∧ p.y ≤ (mbr_expand_point m p).max_y := by
  simp only [mbr_expand_point]
  refine ⟨?_, ?_, ?_, ?_⟩ <;> (split <;> linarith)

theorem foldl_expand_pt_min_x_le (points : List KDPointData) (m : MBR) :
    (points.foldl (fun b e => mbr_expand_point b e.point) m).min_x ≤ m.min_x := by
  induction points generalizing m with
  | nil => exact le_refl _
  | cons a tl ih => exact le_trans (ih _) (mbr_expand_point_min_x_le m a.point)

theorem foldl_expand_pt_min_y_le (points : List KDPointData) (m : MBR) :
    (points.foldl (fun b e => mbr_expand_point b e.point) m).min_y ≤ m.min_y := by
  induction points generalizing m with
  | nil => exact le_refl _
  | cons a tl ih => exact le_trans (ih _) (mbr_expand_point_min_y_le m a.point)

theorem foldl_expand_pt_max_x_ge (points : List KDPointData) (m : MBR) :
    m.max_x ≤ (points.foldl (fun b e => mbr_expand_point b e.point) m).max_x := by
  induction points generalizing m with
  | nil => exact le_refl _
  | cons a tl ih => exact le_trans (mbr_expand_point_max_x_ge m a.point) (ih _)

theorem foldl_expand_pt_max_y_ge (points : List KDPointData) (m : MBR) :
    m.max_y ≤ (points.foldl (fun b e => mbr_expand_point b e.point) m).max_y := by
  induction points generalizing m with
  | nil => exact le_refl _
  | cons a tl ih => exact le_trans (mbr_expand_point_max_y_ge m a.point) (ih _)

theorem mbr_contains_point_iff (m : MBR) (p : Point) :
    mbr_contains_point m p = true ↔
      m.min_x ≤ p.x ∧ p.x ≤ m.max_x ∧ m.min_y ≤ p.y ∧ p.y ≤ m.max_y := by
  simp only [mbr_contains_point, mbr_is_empty]
  constructor
  · intro h
    split at h
    · cases h
    · simp only [Bool.and_eq_true, decide_eq_true_eq, ge_iff_le] at h
      tauto
  · intro ⟨h1, h2, h3, h4⟩
    have hne : (m.min_x > m.max_x || m.min_y > m.max_y) = false := by
      simp only [Bool.or_eq_false_iff, decide_eq_false_iff_not, not_lt]
      constructor <;> linarith
    simp only [hne, Bool.false_eq_true, if_false, Bool.and_eq_true, decide_eq_true_eq, ge_iff_le]
    tauto

theorem foldl_expand_pt_absorbs (points : List KDPointData) (m : MBR) (e : KDPointData)
    (he : e ∈ points) :
    (points.foldl (fun b x => mbr_expand_point b x.point) m).min_x ≤ e.point.x ∧
    e.point.x ≤ (points.foldl (fun b x => mbr_expand_point b x.point) m).max_x ∧
    (points.foldl (fun b x => mbr_expand_point b x.point) m).min_y ≤ e.point.y ∧
    e.point.y ≤ (points.foldl (fun b x => mbr_expand_point b x.point) m).max_y := by
  induction points generalizing m with
  | nil => cases he
  | cons a tl ih =>
      rcases List.mem_cons.mp he with rfl | hmem
      · obtain ⟨h1, h2, h3, h4⟩ := mbr_expand_point_absorbs m e.point
        simp only [List.foldl_cons]
        exact ⟨le_trans (foldl_expand_pt_min_x_le tl _) h1,
               le_trans h2 (foldl_expand_pt_max_x_ge tl _),
               le_trans (foldl_expand_pt_min_y_le tl _) h3,
               le_trans h4 (foldl_expand_pt_max_y_ge tl _)⟩
      · simpa using ih (mbr_expand_point m a.point) hmem

/-- The bulk-load tree bounds contain every input point. -/
theorem kd_tree_bounds_contains (points : List KDPointData) (e : KDPointData)
    (he : e ∈ points) : mbr_contains_point (kd_tree_bounds points) e.point = true := by
  rw [mbr_contains_point_iff]
  exact foldl_expand_pt_absorbs points mbr_empty e he

/-- A subtree's derived bounds cover the coordinates of every point in the
subtree. -/
theorem kd_bounds_cover (t : KDNodeT) : ∀ e ∈ t.toList,
    t.bounds.min_x ≤ e.point.x ∧ e.point.x ≤ t.bounds.max_x ∧
    t.bounds.min_y ≤ e.point.y ∧ e.point.y ≤ t.bounds.max_y := by
  induction t with
  | nil => intro e he; cases he
  | node p id obj l r ihl ihr =>
      intro e he
      rcases List.mem_cons.mp he with rfl | hmem
      · simp only [KDNodeT.bounds]
        have h1 := mbr_expand_mbr_min_x_le (mbr_expand_mbr (mbr_create p.x p.y p.x p.y) l.bounds) r.bounds
        have h2 := mbr_expand_mbr_min_x_le (mbr_create p.x p.y p.x p.y) l.bounds
        have h3 := mbr_expand_mbr_max_x_ge (mbr_expand_mbr (mbr_create p.x p.y p.x p.y) l.bounds) r.bounds
        have h4 := mbr_expand_mbr_max_x_ge (mbr_create p.x p.y p.x p.y) l.bounds
        have h5 := mbr_expand_mbr_min_y_le (mbr_expand_mbr (mbr_create p.x p.y p.x p.y) l.bounds) r.bounds
        have h6 := mbr_expand_mbr_min_y_le (mbr_create p.x p.y p.x p.y) l.bounds
        have h7 := mbr_expand_mbr_max_y_ge (mbr_expand_mbr (mbr_create p.x p.y p.x p.y) l.bounds) r.bounds
        have h8 := mbr_expand_mbr_max_y_ge (mbr_create p.x p.y p.x p.y) l.bounds
        simp only [mbr_create] at *
        exact ⟨by linarith, by linarith, by linarith, by linarith⟩
      · rcases List.mem_append.mp hmem with hl | hr
        · obtain ⟨a1, a2, a3, a4⟩ := ihl e hl
          have hlb : mbr_is_empty l.bounds = false :=
            (mbr_is_empty_false_iff l.bounds).mpr ⟨by linarith, by linarith⟩
          obtain ⟨b1, b2, b3, b4⟩ := mbr_expand_mbr_absorbs (mbr_create p.x p.y p.x p.y) l.bounds hlb
          have c1 := mbr_expand_mbr_min_x_le (mbr_expand_mbr (mbr_create p.x p.y p.x p.y) l.bounds) r.bounds
          have c2 := mbr_expand_mbr_max_x_ge (mbr_expand_mbr (mbr_create p.x p.y p.x p.y) l.bounds) r.bounds
          have c3 := mbr_expand_mbr_min_y_le (mbr_expand_mbr (mbr_create p.x p.y p.x p.y) l.bounds) r.bounds
          have c4 := mbr_expand_mbr_max_y_ge (mbr_expand_mbr (mbr_create p.x p.y p.x p.y) l.bounds) r.bounds
          simp only [KDNodeT.bounds]
          exact ⟨by linarith, by linarith, by linarith, by linarith⟩
        · obtain ⟨a1, a2, a3, a4⟩ := ihr e hr
          have hrb : mbr_is_empty r.bounds = false :=
            (mbr_is_empty_false_iff r.bounds).mpr ⟨by linarith, by linarith⟩
          obtain ⟨b1, b2, b3, b4⟩ := mbr_expand_mbr_absorbs
            (mbr_expand_mbr (mbr_create p.x p.y p.x p.y) l.bounds) r.bounds hrb
          simp only [KDNodeT.bounds]
          exact ⟨by linarith, by linarith, by linarith, by linarith⟩

/-- When the query range contains every point of the subtree, the pruned
range query emits exactly the preorder point list. -/
theorem range_query_all (t : KDNodeT) (B : MBR)
    (h : ∀ e ∈ t.toList, mbr_contains_point B e.point = true) :
    range_query_recursive t B = t.toList := by
  induction t with
  | nil => rfl
  | node p id obj l r ihl ihr =>
      have hp : mbr_contains_point B p = true := h ⟨p, id, obj⟩ (List.mem_cons_self _ _)
      obtain ⟨hp1, hp2, hp3, hp4⟩ := (mbr_contains_point_iff B p).mp hp
      obtain ⟨hb1, hb2, hb3, hb4⟩ :=
        kd_bounds_cover (KDNodeT.node p id obj l r) ⟨p, id, obj⟩ (List.mem_cons_self _ _)
      have hint : mbr_intersects (KDNodeT.node p id obj l r).bounds B = true := by
        rw [mbr_intersects_iff]
        refine ⟨(mbr_is_empty_false_iff _).mpr ⟨by linarith, by linarith⟩,
                (mbr_is_empty_false_iff _).mpr ⟨by linarith, by linarith⟩,
                by linarith, by linarith, by linarith, by linarith⟩
      have hl : ∀ e ∈ l.toList, mbr_contains_point B e.point = true := fun e he =>
        h e (List.mem_cons_of_mem _ (List.mem_append.mpr (Or.inl he)))
      have hr : ∀ e ∈ r.toList, mbr_contains_point B e.point = true := fun e he =>
        h e (List.mem_cons_of_mem _ (List.mem_append.mpr (Or.inr he)))
      simp only [range_query_recursive, hint, Bool.true_eq_false, if_false, hp, if_true,
                 ihl hl, ihr hr, KDNodeT.toList, List.cons_append, List.nil_append,
                 List.append_assoc]

/-- Correctness of the inner selection scan: from a valid running best it
returns a valid index whose distance is the running minimum, no larger than
the incoming best and no larger than any scanned entry's distance. -/
theorem scan_min_spec (q : Point) (arr : List KDPointData) (x : KDPointData) :
    ∀ (es : List KDPointData) (j : ℕ) (b : ℕ × ℚ),
      es = arr.drop j →
      b.1 < arr.length →
      point_distance_sq q (arr.getD b.1 x).point = b.2 →
      (scan_min q b j es).1 < arr.length ∧
      point_distance_sq q (arr.getD (scan_min q b j es).1 x).point = (scan_min q b j es).2 ∧
      (scan_min q b j es).2 ≤ b.2 ∧
      ∀ e ∈ es, (scan_min q b j es).2 ≤ point_distance_sq q e.point := by
  intro es
  induction es with
  | nil =>
      intro j b _ hb1 hb2
      exact ⟨hb1, hb2, le_refl _, fun e he => absurd he (List.not_mem_nil e)⟩
  | cons e es' ih =>
      intro j b hes hb1 hb2
      have hj : j < arr.length := by
        by_contra hge
        rw [List.drop_eq_nil_of_le (Nat.le_of_not_lt hge)] at hes
        cases hes
      have hgetj : arr.getD j x = e := by
        have : arr[j]? = some e := by
          rw [← List.head?_drop, ← hes]
          rfl
        rw [List.getD_eq_getElem?_getD, this]
        rfl
      have hes' : es' = arr.drop (j + 1) := by
        have : arr.drop (j + 1) = (arr.drop j).tail := by
          rw [← List.drop_one, List.drop_drop]
        rw [this, ← hes]
        rfl
      simp only [scan_min]
      by_cases hlt : point_distance_sq q e.point < b.2
      · rw [if_pos hlt]
        obtain ⟨r1, r2, r3, r4⟩ := ih (j + 1) (j, point_distance_sq q e.point) hes' hj
          (by rw [hgetj])
        exact ⟨r1, r2, le_trans r3 (le_of_lt hlt), fun a ha => by
          rcases List.mem_cons.mp ha with rfl | hmem
          · exact r3
          · exact r4 a hmem⟩
      · rw [if_neg hlt]
        obtain ⟨r1, r2, r3, r4⟩ := ih (j + 1) b hes' hb1 hb2
        exact ⟨r1, r2, r3, fun a ha => by
          rcases List.mem_cons.mp ha with rfl | hmem
          · exact le_trans r3 (le_of_not_lt hlt)
          · exact r4 a hmem⟩

/-- The suffix left after one selection swap is, as a multiset, the array
without the selected index. -/
theorem set_tail_perm_eraseIdx (x : KDPointData) (xs : List KDPointData) (m : ℕ)
    (hm : m < (x :: xs).length) :
    (((x :: xs).set m x).tail).Perm ((x :: xs).eraseIdx m) := by
  cases m with
  | zero => simp [List.set]
  | succ j =>
      have hj : j < xs.length := by
        simp only [List.length_cons] at hm
        omega
      simp only [List.set_cons_succ, List.tail_cons, List.eraseIdx_cons_succ]
      rw [List.set_eq_take_cons_drop x hj, List.eraseIdx_eq_take_drop_succ]
      exact List.perm_middle.trans (List.Perm.cons x (List.Perm.refl _))

/-- An array is a permutation of any element pulled out in front of the
array without it. -/
theorem perm_getD_cons_eraseIdx (arr : List KDPointData) (x : KDPointData) (m : ℕ)
    (hm : m < arr.length) :
    arr.Perm (arr.getD m x :: arr.eraseIdx m) := by
  rw [List.getD_eq_getElem arr x hm, List.eraseIdx_eq_take_drop_succ]
  conv_lhs => rw [← List.take_append_drop m arr, List.drop_eq_getElem_cons hm]
  exact List.perm_middle

/-- Correctness of the selection sort of kdtree_k_nearest: the emitted list
is min k n long, sorted by non-decreasing distance, and together with some
rest is a permutation of the input, with everything in the rest at least as
far as everything emitted. -/
theorem select_k_spec (q : Point) : ∀ (k : ℕ) (arr : List KDPointData),
    ∃ rest,
      arr.Perm (select_k_by_distance q k arr ++ rest) ∧
      (select_k_by_distance q k arr).length = min k arr.length ∧
      (select_k_by_distance q k arr).Pairwise
        (fun a b => point_distance_sq q a.point ≤ point_distance_sq q b.point) ∧
      (∀ e ∈ rest, ∀ v ∈ select_k_by_distance q k arr,
        point_distance_sq q v.point ≤ point_distance_sq q e.point) := by
  intro k
  induction k with
  | zero =>
      intro arr
      exact ⟨arr, List.Perm.refl _, by simp [select_k_by_distance], by
        simp [select_k_by_distance], fun e _ v hv => absurd hv (List.not_mem_nil v)⟩
  | succ k ih =>
      intro arr
      cases arr with
      | nil =>
          exact ⟨[], List.Perm.refl _, by simp [select_k_by_distance], by
            simp [select_k_by_distance], fun e he => absurd he (List.not_mem_nil e)⟩
      | cons x xs =>
          obtain ⟨hm, hmin⟩ :
              (scan_min q (0, point_distance_sq q x.point) 1 xs).1 < (x :: xs).length ∧
              ∀ e ∈ x :: xs,
                point_distance_sq q
                  ((x :: xs).getD (scan_min q (0, point_distance_sq q x.point) 1 xs).1 x).point ≤
                point_distance_sq q e.point := by
            obtain ⟨r1, r2, r3, r4⟩ := scan_min_spec q (x :: xs) x xs 1
              (0, point_distance_sq q x.point) rfl (by simp) rfl
            refine ⟨r1, fun e he => ?_⟩
            rcases List.mem_cons.mp he with rfl | hmem
            · rw [r2]
              exact r3
            · rw [r2]
              exact r4 e hmem
          obtain ⟨rest, hperm, hlen, hpair, hrest⟩ :=
            ih (((x :: xs).set (scan_min q (0, point_distance_sq q x.point) 1 xs).1 x).tail)
          have hstep : select_k_by_distance q (k + 1) (x :: xs) =
              ((x :: xs).getD (scan_min q (0, point_distance_sq q x.point) 1 xs).1 x) ::
              select_k_by_distance q k
                (((x :: xs).set (scan_min q (0, point_distance_sq q x.point) 1 xs).1 x).tail) :=
            rfl
          have hpermArr : (x :: xs).Perm
              (((x :: xs).getD (scan_min q (0, point_distance_sq q x.point) 1 xs).1 x) ::
               ((x :: xs).set (scan_min q (0, point_distance_sq q x.point) 1 xs).1 x).tail) :=
            (perm_getD_cons_eraseIdx (x :: xs) x _ hm).trans
              (List.Perm.cons _ (set_tail_perm_eraseIdx x xs _ hm).symm)
          have hmemArr : ∀ y,
              y ∈ ((x :: xs).set (scan_min q (0, point_distance_sq q x.point) 1 xs).1 x).tail →
              y ∈ x :: xs := by
            intro y hy
            have := (set_tail_perm_eraseIdx x xs _ hm).mem_iff.mp hy
            exact List.mem_of_mem_eraseIdx this
          refine ⟨rest, ?_, ?_, ?_, ?_⟩
          · rw [hstep]
            exact hpermArr.trans (List.Perm.cons _ hperm)
          · rw [hstep]
            simp only [List.length_cons, hlen, List.length_tail, List.length_set]
            omega
          · rw [hstep]
            refine List.Pairwise.cons ?_ hpair
            intro y hy
            have hyArr : y ∈ x :: xs := by
              apply hmemArr
              exact (hperm.mem_iff).mpr (List.mem_append.mpr (Or.inl hy))
            exact hmin y hyArr
          · intro e he v hv
            rw [hstep] at hv
            rcases List.mem_cons.mp hv with rfl | hmem
            · apply hmin
              apply hmemArr
              exact (hperm.mem_iff).mpr (List.mem_append.mpr (Or.inr he))
            · exact hrest e he v hmem

/-- C5: on any index just built over its stored objects, query_knn with
1 ≤ k ≤ n succeeds and returns exactly k objects, ordered by non-decreasing
squared Euclidean distance of their centroids to the query point (squared
distance orders exactly as Euclidean distance, which the C compares via
dist_sq as well), and the stored objects split into the returned list plus a
rest in which no object is strictly closer than any returned object — in
particular none is closer than the farthest returned one. -/
theorem C5_knn_correct (st : SpatialIndex) (p : Point) (k : ℕ)
    (hk1 : 1 ≤ k) (hk2 : k ≤ (st.pool.flatMap Page.objects).length) :
    ∃ res rest,
      spatial_index_query_knn (spatial_index_build st) p k [] = (.ok (), res) ∧
      res.length = k ∧
      res.Pairwise (fun a b =>
        point_distance_sq p a.centroid ≤ point_distance_sq p b.centroid) ∧
      (st.pool.flatMap Page.objects).Perm (res ++ rest) ∧
      (∀ o ∈ rest, ∀ r ∈ res,
        point_distance_sq p r.centroid ≤ point_distance_sq p o.centroid) := by
  have hk0 : k ≠ 0 := by omega
  have hne : (st.pool.flatMap Page.objects).length ≠ 0 := by omega
  have hplen : ((st.pool.flatMap Page.objects).map
      (fun o => KDPointData.mk o.centroid o.id o)).length =
      (st.pool.flatMap Page.objects).length := List.length_map _ _
  have hbuild : (spatial_index_build st).block_tree =
      kdtree_bulk_load st.block_tree
        ((st.pool.flatMap Page.objects).map (fun o => KDPointData.mk o.centroid o.id o)) := by
    simp only [spatial_index_build, if_neg hne]
  have hload : kdtree_bulk_load st.block_tree
      ((st.pool.flatMap Page.objects).map (fun o => KDPointData.mk o.centroid o.id o)) =
      { root := build_tree_recursive
          ((st.pool.flatMap Page.objects).map (fun o => KDPointData.mk o.centroid o.id o)).length
          ((st.pool.flatMap Page.objects).map (fun o => KDPointData.mk o.centroid o.id o)) 0
        size := ((st.pool.flatMap Page.objects).map
          (fun o => KDPointData.mk o.centroid o.id o)).length
        bounds := kd_tree_bounds
          ((st.pool.flatMap Page.objects).map (fun o => KDPointData.mk o.centroid o.id o)) } := by
    rw [kdtree_bulk_load, if_neg (by rw [hplen]; exact hne)]
  set points := (st.pool.flatMap Page.objects).map (fun o => KDPointData.mk o.centroid o.id o)
    with hpoints
  set root := build_tree_recursive points.length points 0 with hroot
  have hroot_ne : root ≠ KDNodeT.nil := by
    obtain ⟨n, hn⟩ : ∃ n, points.length = n + 1 :=
      ⟨(st.pool.flatMap Page.objects).length - 1, by rw [hplen]; omega⟩
    rw [hroot, hn]
    intro hcon
    rw [build_tree_recursive] at hcon
    rw [if_neg (by rw [hn]; omega)] at hcon
    cases hcon
  have htl : root.toList.Perm points :=
    build_tree_toList_perm points.length points 0 (le_refl _)
  have hcollect : range_query_recursive root (kd_tree_bounds points) = root.toList :=
    range_query_all root (kd_tree_bounds points)
      (fun e he => kd_tree_bounds_contains points e (htl.mem_iff.mp he))
  obtain ⟨restE, hperm, hlen, hpair, hmin⟩ := select_k_spec p k root.toList
  have hknn : kdtree_k_nearest (spatial_index_build st).block_tree p k =
      .ok (select_k_by_distance p k root.toList) := by
    rw [hbuild, hload, kdtree_k_nearest]
    simp only [if_neg hroot_ne, if_neg hk0, hcollect]
  have hq : spatial_index_query_knn (spatial_index_build st) p k [] =
      (.ok (), (select_k_by_distance p k root.toList).map KDPointData.obj) := by
    rw [spatial_index_query_knn, if_neg hk0, hknn]
  have hobjsmap : points.map KDPointData.obj = st.pool.flatMap Page.objects := by
    rw [hpoints, List.map_map]
    exact List.map_id _
  have hpc : ∀ e ∈ root.toList, e.point = e.obj.centroid := by
    intro e he
    obtain ⟨o, _, rfl⟩ := List.mem_map.mp (htl.mem_iff.mp he)
    rfl
  have hmem_sel : ∀ v ∈ select_k_by_distance p k root.toList, v ∈ root.toList := by
    intro v hv
    exact hperm.mem_iff.mpr (List.mem_append.mpr (Or.inl hv))
  have hmem_rest : ∀ e ∈ restE, e ∈ root.toList := by
    intro e he
    exact hperm.mem_iff.mpr (List.mem_append.mpr (Or.inr he))
  refine ⟨(select_k_by_distance p k root.toList).map KDPointData.obj,
          restE.map KDPointData.obj, hq, ?_, ?_, ?_, ?_⟩
  · rw [List.length_map, hlen, htl.length_eq, hplen]
    omega
  · rw [List.pairwise_map]
    refine List.Pairwise.imp_of_mem ?_ hpair
    intro a b ha hb hd
    rwa [hpc a (hmem_sel a ha), hpc b (hmem_sel b hb)] at hd
  · rw [← hobjsmap, ← List.map_append]
    exact (htl.symm.trans hperm).map KDPointData.obj
  · intro o ho r hr
    obtain ⟨e, he, rfl⟩ := List.mem_map.mp ho
    obtain ⟨v, hv, rfl⟩ := List.mem_map.mp hr
    have := hmin e he v hv
    rwa [hpc e (hmem_rest e he), hpc v (hmem_sel v hv)] at this

/-- Witness for C5 at the spec's kNN scenario: five points, query
(1/2, 1/2), k = 3.  The hypotheses hold, the theorem applies, and the query
evaluates to the three nearest objects — (1,1) and (0,0) tied at squared
distance 1/2, then (2,2) — in non-decreasing distance order. -/
theorem C5_knn_correct_witness :
    1 ≤ 3 ∧ 3 ≤ (wKnnSt.pool.flatMap Page.objects).length ∧
    (∃ res rest,
      spatial_index_query_knn (spatial_index_build wKnnSt) ⟨1/2, 1/2⟩ 3 [] = (.ok (), res) ∧
      res.length = 3 ∧
      res.Pairwise (fun a b =>
        point_distance_sq ⟨1/2, 1/2⟩ a.centroid ≤ point_distance_sq ⟨1/2, 1/2⟩ b.centroid) ∧
      (wKnnSt.pool.flatMap Page.objects).Perm (res ++ rest) ∧
      (∀ o ∈ rest, ∀ r ∈ res,
        point_distance_sq ⟨1/2, 1/2⟩ r.centroid ≤ point_distance_sq ⟨1/2, 1/2⟩ o.centroid)) ∧
    ((spatial_index_query_knn (spatial_index_build wKnnSt) ⟨1/2, 1/2⟩ 3 []).2).map
      SpatialObject.id = [2, 1, 3] := by
  refine ⟨by decide, by decide,
          C5_knn_correct wKnnSt ⟨1/2, 1/2⟩ 3 (by decide) (by decide), by decide⟩

end

end Urbis
